import Mathlib

/-!
Verification development for the biominserter core
(`cppsrc/MOIP.cpp`, `cppsrc/Motif.cpp` / `rna.cpp`).

The C++ sources are shallowly embedded below.  Pure functions become Lean
functions; the imperative dynamic-programming passes become explicit folds
over index ranges, updating matrices represented as total functions
`ℕ → ℕ → ℝ`.  `double`/`float` arithmetic is idealized as exact real
arithmetic; machine loop bounds computed with C `int` arithmetic are
translated to `ℕ` ranges that are empty exactly when the C loops are.
The thermodynamic parameter blob (`rna1995.h`) and the enum/constant
definitions of `rna.h` are not part of the sources; tables are therefore
carried as an explicit `EnergyModel` parameter and the enum codes are
fixed, consistently with every use site in the sources.
-/

/-- Inclusive integer range `[a, b]` as a list, empty when `b < a`.
Mirrors the C loops `for (v = a; v <= b; v++)`. -/
def natRange (a b : ℕ) : List ℕ := (List.range (b + 1 - a)).map (a + ·)

theorem mem_natRange {a b x : ℕ} : x ∈ natRange a b ↔ a ≤ x ∧ x ≤ b := by
  constructor
  · intro h
    rcases List.mem_map.mp h with ⟨k, hk, rfl⟩
    have := List.mem_range.mp hk
    omega
  · intro ⟨h1, h2⟩
    exact List.mem_map.mpr ⟨x - a, List.mem_range.mpr (by omega), by omega⟩

/-- A fold preserves any invariant that every step preserves. -/
theorem foldl_keep {α σ : Type} {P : σ → Prop} (f : σ → α → σ) (l : List α)
    (h : ∀ s x, x ∈ l → P s → P (f s x)) : ∀ s, P s → P (l.foldl f s) := by
  induction l with
  | nil => intro s hs; exact hs
  | cons x xs ih =>
      intro s hs
      exact ih (fun s y hy => h s y (List.mem_cons_of_mem _ hy))
        (f s x) (h s x (List.mem_cons_self _ _) hs)

/-- A fold both preserves a global invariant `P` and establishes, for every
element of the list, a per-element property `Q` that each later step keeps. -/
theorem foldl_estab {α σ : Type} {P : σ → Prop} {Q : α → σ → Prop}
    (f : σ → α → σ) (l : List α)
    (hP : ∀ s x, x ∈ l → P s → P (f s x))
    (hQest : ∀ s x, x ∈ l → P s → Q x (f s x))
    (hQkeep : ∀ s x y, x ∈ l → P s → Q y s → Q y (f s x)) :
    ∀ s, P s → P (l.foldl f s) ∧ ∀ x ∈ l, Q x (l.foldl f s) := by
  induction l with
  | nil => intro s hs; exact ⟨hs, by intro x hx; cases hx⟩
  | cons x xs ih =>
      intro s hs
      have hmem : x ∈ x :: xs := List.mem_cons_self _ _
      have h1 : P (f s x) := hP s x hmem hs
      have h2 : Q x (f s x) := hQest s x hmem hs
      have ihres := ih (fun s y hy => hP s y (List.mem_cons_of_mem _ hy))
        (fun s y hy => hQest s y (List.mem_cons_of_mem _ hy))
        (fun s y z hy => hQkeep s y z (List.mem_cons_of_mem _ hy))
        (f s x) h1
      refine ⟨ihres.1, ?_⟩
      intro y hy
      rcases List.mem_cons.mp hy with hy1 | hy2
      · subst hy1
        have hkeep : (fun t => P t ∧ Q y t) (xs.foldl f (f s y)) :=
          foldl_keep (P := fun t => P t ∧ Q y t) f xs
            (fun t z hz hpq =>
              ⟨hP t z (List.mem_cons_of_mem _ hz) hpq.1,
               hQkeep t z y (List.mem_cons_of_mem _ hz) hpq.1 hpq.2⟩)
            (f s y) ⟨h1, h2⟩
        exact hkeep.2
      · exact ihres.2 y hy2

/-! ### Carnaval RIN link-line loop (`Motif::Motif(vector<Component>, path, uint, bool)`,
`Motif.cpp` lines 105-128).

Each iteration does `index = line.find(";"); link_str = line.substr(0, index);
line.erase(0, index + 1);`.  When a `';'` is present the erase drops the
record up to and including it; when none is present `find` returns `npos`
and `npos + 1` wraps to `0`, so `erase(0, 0)` leaves the line unchanged. -/

/-- Drop the characters of `l` up to and including the first `';'`.
Models `line.erase(0, line.find(";") + 1)` when a `';'` exists. -/
def dropPastSemi : List Char → List Char
  | [] => []
  | c :: r => if c = ';' then r else dropPastSemi r

/-- One iteration of the links-line `while (line != "")` loop, restricted to
its effect on the read cursor: if the line holds a `';'` everything up to and
including the first one is erased, otherwise `erase(0, npos + 1) = erase(0, 0)`
leaves the line unchanged. -/
def consumeLink (l : List Char) : List Char :=
  if (';') ∈ l then dropPastSemi l else l

theorem dropPastSemi_shorter {l : List Char} (h : (';') ∈ l) :
    (dropPastSemi l).length < l.length := by
  induction l with
  | nil => cases h
  | cons c r ih =>
      by_cases hc : c = ';'
      · simp [dropPastSemi, hc]
      · rcases List.mem_cons.mp h with h1 | h2
        · exact absurd h1.symm hc
        · simpa [dropPastSemi, hc] using Nat.lt_succ_of_lt (ih h2)

/-! ### Motif equality (`operator==(const Motif&, const Motif&)`,
`Motif.cpp` lines 380-388). -/

inductive MotifSource where
  | RNA3DMOTIF
  | RNAMOTIFATLAS
  | CARNAVAL
deriving DecidableEq

/-- One motif component (`Component` of `Motif.h`): a position interval,
a length `k` and a literal sequence pattern. -/
structure Component where
  pos : ℤ × ℤ
  k : ℤ
  seq : String
deriving DecidableEq

instance : Inhabited Component := ⟨⟨(0, 0), 0, ""⟩⟩

structure Motif where
  source : MotifSource
  atlas_id : String
  carnaval_id : String
  PDBID : String
  score : ℤ
  reversed : Bool
  comp : List Component
deriving DecidableEq

/-- `Motif::get_identifier` (`Motif.cpp` lines 176-183). -/
def getIdentifier (m : Motif) : String :=
  match m.source with
  | MotifSource.RNAMOTIFATLAS => m.atlas_id
  | MotifSource.CARNAVAL => "RIN" ++ m.carnaval_id
  | MotifSource.RNA3DMOTIF => m.PDBID

/-- `operator==(const Component&, const Component&)` (`Motif.cpp` 369-374):
only the position pair is compared. -/
def componentEq (c1 c2 : Component) : Bool :=
  c1.pos.1 == c2.pos.1 && c1.pos.2 == c2.pos.2

/-- The loop `for (i = 0; i < m1.comp.size(); i++) if (m1.comp[i] != m2.comp[i])
return false;` — iteration count is driven by `m1.comp` while both vectors are
indexed, so indexing `m2.comp` past its size yields no value (`none` models the
out-of-bounds access). -/
def compsCheck : List Component → List Component → Option Bool
  | [], _ => some true
  | _ :: _, [] => none
  | c1 :: r1, c2 :: r2 => if componentEq c1 c2 = false then some false else compsCheck r1 r2

/-- `operator==(const Motif&, const Motif&)`; `none` signals that the
component loop read `m2.comp` out of bounds. -/
def motifEq (m1 m2 : Motif) : Option Bool :=
  if getIdentifier m1 ≠ getIdentifier m2 then some false
  else if m1.score ≠ m2.score then some false
  else if m1.reversed ≠ m2.reversed then some false
  else compsCheck m1.comp m2.comp

theorem compsCheck_isSome {l1 l2 : List Component} (h : l1.length ≤ l2.length) :
    (compsCheck l1 l2).isSome = true := by
  induction l1 generalizing l2 with
  | nil => simp [compsCheck]
  | cons c1 r1 ih =>
      cases l2 with
      | nil => simp at h
      | cons c2 r2 =>
          by_cases hc : componentEq c1 c2 = false
          · simp [compsCheck, hc]
          · simpa [compsCheck, hc] using ih (by simpa using h)

/-! ### The forbid clause (`MOIP::solve_objective`, `MOIP.cpp` lines 174-187).

After reading the optimal 0/1 assignment, the code builds
`c = Σ_{d : x̂_d = 1} (1 - x_d) + Σ_{d : x̂_d = 0} x_d` over every insertion
and basepair decision variable and adds `c ≥ 1` to the model.  `forbidSum`
evaluates that expression at another 0/1 assignment `x`; `xhat` and `x` list
the values of all decision variables in the model's order. -/

def boolVal (b : Bool) : ℤ := if b then 1 else 0

def forbidSum : List Bool → List Bool → ℤ
  | [], _ => 0
  | _, [] => 0
  | a :: r, b :: s => (if a then 1 - boolVal b else boolVal b) + forbidSum r s

theorem forbidSum_nonneg : ∀ xh x : List Bool, 0 ≤ forbidSum xh x := by
  intro xh
  induction xh with
  | nil => intro x; simp [forbidSum]
  | cons a r ih =>
      intro x
      cases x with
      | nil => simp [forbidSum]
      | cons b s =>
          have h1 : (0 : ℤ) ≤ (if a then 1 - boolVal b else boolVal b) := by
            cases a <;> cases b <;> simp [boolVal]
          have := ih s
          simp only [forbidSum]
          omega

theorem forbidSum_self : ∀ xh : List Bool, forbidSum xh xh = 0 := by
  intro xh
  induction xh with
  | nil => simp [forbidSum]
  | cons a r ih => cases a <;> simp [forbidSum, boolVal, ih]

theorem forbidSum_eq_zero_iff :
    ∀ xh x : List Bool, x.length = xh.length → (forbidSum xh x = 0 ↔ x = xh) := by
  intro xh
  induction xh with
  | nil =>
      intro x h
      cases x with
      | nil => simp [forbidSum]
      | cons b s => simp at h
  | cons a r ih =>
      intro x h
      cases x with
      | nil => simp at h
      | cons b s =>
          have hres := ih s (by simpa using h)
          have hnn1 : (0 : ℤ) ≤ (if a then 1 - boolVal b else boolVal b) := by
            cases a <;> cases b <;> simp [boolVal]
          have hnn2 := forbidSum_nonneg r s
          constructor
          · intro h0
            simp only [forbidSum] at h0
            have ht : (if a then 1 - boolVal b else boolVal b) = 0 ∧ forbidSum r s = 0 := by omega
            have hab : b = a := by
              cases a <;> cases b <;> simp_all [boolVal]
            simp [hab, hres.mp ht.2]
          · intro he
            cases he
            exact forbidSum_self (a :: r)

/-! ### Constraint K6 (`MOIP::define_problem_constraints`, `MOIP.cpp`
lines 316-339).

For each insertion site the code builds an `IloExpr c6p` that is the empty
sum when the closing pair is not an allowed y-variable, and the single term
`y(first, last)` when it is, then posts `C(i,0) ≤ c6p`; analogously
`C(i,j) ≤ c6` for the pair joining consecutive components `j` and `j+1`. -/

/-- Value of the right-hand side of a K6 constraint under an assignment of
the y-variables: the y-term participates only when the pair is allowed,
otherwise the sum is empty. -/
def K6rhs (allowed yv : ℕ → ℕ → Bool) (a b : ℕ) : ℤ :=
  if allowed a b then boolVal (yv a b) else 0

/-- The K6 closing constraint `C(i,0) ≤ c6p` for a list of component
position intervals, under assignments `yv` (basepair variables) and
`cv` (the site's component variables). -/
def K6closingSat (allowed yv : ℕ → ℕ → Bool) (cv : ℕ → Bool)
    (comps : List (ℕ × ℕ)) : Prop :=
  boolVal (cv 0) ≤ K6rhs allowed yv (comps.headI.1) ((comps.getLastD (0, 0)).2)

/-- The K6 consecutive-components constraint `C(i,j) ≤ c6` between
components `j` and `j+1`. -/
def K6innerSat (allowed yv : ℕ → ℕ → Bool) (cv : ℕ → Bool)
    (comps : List (ℕ × ℕ)) (j : ℕ) : Prop :=
  boolVal (cv j) ≤ K6rhs allowed yv ((comps.getD j (0, 0)).2) ((comps.getD (j + 1) (0, 0)).1)

theorem boolVal_le_zero {b : Bool} (h : boolVal b ≤ 0) : b = false := by
  cases b <;> simp [boolVal] at h ⊢

/-! ### The Pareto walker (`MOIP.cpp` lines 115-121, 342-373).

`SecondaryStructure` and its comparison operator live in
`SecondaryStructure.cpp`, which is not among the sources; a structure is
represented by its two objective scores.  The CPLEX solver is external and
is treated, as the spec prescribes, as an oracle answering each call either
with a structure whose `obj1` lies in the requested window or with
infeasibility (`none`); the oracle also receives the call index, which
stands for the model state mutated by the accumulated forbid clauses. -/

/-- A secondary structure, reduced to its objective scores
(`obj1` = motif score, `obj2` = expected accuracy). -/
structure Sol where
  obj1 : ℚ
  obj2 : ℚ
deriving DecidableEq

/-- Modelled from the spec: `operator>` of `SecondaryStructure.cpp` is not in
the sources; per §3, "a structure s dominates t iff obj1(s) ≥ obj1(t) ∧
obj2(s) ≥ obj2(t) with at least one strict inequality". -/
def dominates (s t : Sol) : Bool :=
  (t.obj1 ≤ s.obj1 && t.obj2 ≤ s.obj2) && (t.obj1 < s.obj1 || t.obj2 < s.obj2)

/-- `MOIP::is_undominated_yet`: true iff no element of the current Pareto
set dominates `s`. -/
def isUndominatedYet (pareto : List Sol) (s : Sol) : Bool :=
  pareto.all fun p => !dominates p s

/-- `MOIP::add_solution`: erase every stored structure dominated by `s`
(the `to_remove` back-to-front erase loop), then `push_back(s)`. -/
def addSolution (pareto : List Sol) (s : Sol) : List Sol :=
  (pareto.filter fun p => !dominates s p) ++ [s]

/-- `MOIP::extend_pareto` running against an oracle and bounded by `fuel`
(each C++ call performs exactly one solver invocation, so `fuel` bounds the
length of the run; every finite run is an instance).  The second result
component records, in order, each structure passed to `add_solution`
together with the Pareto set immediately after that call. -/
def extendPareto (oracle : ℕ → ℚ → ℚ → Option Sol) :
    ℕ → ℕ → ℚ → ℚ → List Sol → List Sol × List (Sol × List Sol)
  | 0, _, _, _, pareto => (pareto, [])
  | fuel + 1, k, lmin, lmax, pareto =>
      match oracle k lmin lmax with
      | none => (pareto, [])
      | some s =>
          if isUndominatedYet pareto s then
            let pareto2 := addSolution pareto s
            let rest := extendPareto oracle fuel (k + 1) s.obj1 lmax pareto2
            (rest.1, (s, pareto2) :: rest.2)
          else (pareto, [])

/-- No two distinct members of the list dominate one another. -/
def noDomPairs : List Sol → Prop
  | [] => True
  | s :: r => (∀ t ∈ r, dominates s t = false ∧ dominates t s = false) ∧ noDomPairs r

instance : DecidablePred noDomPairs := by
  intro l
  induction l with
  | nil => exact isTrue trivial
  | cons s r ih => exact @instDecidableAnd _ _ (List.decidableBAll _ r) ih

theorem filterAppend_inv : ∀ (l : List Sol) (s : Sol),
    (∀ p ∈ l, dominates p s = false) → noDomPairs l →
    noDomPairs ((l.filter fun p => !dominates s p) ++ [s]) := by
  intro l
  induction l with
  | nil =>
      intro s _ _
      simp [noDomPairs]
  | cons q r ih =>
      intro s hall hinv
      by_cases hq : dominates s q = true
      · rw [List.filter_cons_of_neg (by simp [hq])]
        exact ih s (fun p hp => hall p (List.mem_cons_of_mem _ hp)) hinv.2
      · have hq2 : dominates s q = false := by simpa using hq
        rw [List.filter_cons_of_pos (by simp [hq2])]
        refine ⟨?_, ih s (fun p hp => hall p (List.mem_cons_of_mem _ hp)) hinv.2⟩
        intro t ht
        rcases List.mem_append.mp ht with ht1 | ht2
        · exact hinv.1 t (List.mem_of_mem_filter ht1)
        · have hts : t = s := by simpa using ht2
          subst hts
          exact ⟨hall q (List.mem_cons_self _ _), hq2⟩

theorem addSolution_inv {pareto : List Sol} {s : Sol}
    (hinv : noDomPairs pareto) (hund : isUndominatedYet pareto s = true) :
    noDomPairs (addSolution pareto s) := by
  have hall : ∀ p ∈ pareto, dominates p s = false := by
    intro p hp
    have := (List.all_eq_true.mp hund) p hp
    simpa using this
  exact filterAppend_inv pareto s hall hinv

/-- `x` is a lower bound of every `obj1` value in the recorded trace. -/
def traceLB (x : ℚ) : List (Sol × List Sol) → Prop
  | [] => True
  | (s, _) :: r => x ≤ s.obj1 ∧ traceLB x r

/-- The `obj1` values of the trace appear in non-decreasing order. -/
def traceMono : List (Sol × List Sol) → Prop
  | [] => True
  | (s, _) :: r => traceLB s.obj1 r ∧ traceMono r

theorem traceLB_mono {x y : ℚ} (h : x ≤ y) :
    ∀ {tr : List (Sol × List Sol)}, traceLB y tr → traceLB x tr := by
  intro tr
  induction tr with
  | nil => intro _; trivial
  | cons p r ih =>
      intro ht
      exact ⟨le_trans h ht.1, ih ht.2⟩

theorem extendPareto_trace (oracle : ℕ → ℚ → ℚ → Option Sol)
    (hor : ∀ k a b s, oracle k a b = some s → a ≤ s.obj1 ∧ s.obj1 ≤ b) :
    ∀ (fuel k : ℕ) (lmin lmax : ℚ) (pareto : List Sol),
      traceLB lmin (extendPareto oracle fuel k lmin lmax pareto).2 ∧
      traceMono (extendPareto oracle fuel k lmin lmax pareto).2 := by
  intro fuel
  induction fuel with
  | zero => intro k lmin lmax pareto; exact ⟨trivial, trivial⟩
  | succ n ih =>
      intro k lmin lmax pareto
      unfold extendPareto
      cases horc : oracle k lmin lmax with
      | none => exact ⟨trivial, trivial⟩
      | some s =>
          by_cases hund : isUndominatedYet pareto s = true
          · have hobj := hor k lmin lmax s horc
            have ihres := ih (k + 1) s.obj1 lmax (addSolution pareto s)
            simp only [hund, if_true]
            exact ⟨⟨hobj.1, traceLB_mono hobj.1 ihres.1⟩, ⟨ihres.1, ihres.2⟩⟩
          · simp only [Bool.not_eq_true] at hund
            simp only [hund]
            exact ⟨trivial, trivial⟩

theorem extendPareto_inv (oracle : ℕ → ℚ → ℚ → Option Sol) :
    ∀ (fuel k : ℕ) (lmin lmax : ℚ) (pareto : List Sol),
      noDomPairs pareto →
      noDomPairs (extendPareto oracle fuel k lmin lmax pareto).1 ∧
      ∀ pr ∈ (extendPareto oracle fuel k lmin lmax pareto).2, noDomPairs pr.2 := by
  intro fuel
  induction fuel with
  | zero =>
      intro k lmin lmax pareto h
      exact ⟨h, by intro pr hpr; cases hpr⟩
  | succ n ih =>
      intro k lmin lmax pareto h
      unfold extendPareto
      cases horc : oracle k lmin lmax with
      | none => exact ⟨h, by intro pr hpr; cases hpr⟩
      | some s =>
          by_cases hund : isUndominatedYet pareto s = true
          · have h2 : noDomPairs (addSolution pareto s) := addSolution_inv h hund
            have ihres := ih (k + 1) s.obj1 lmax (addSolution pareto s) h2
            simp only [hund, if_true]
            refine ⟨ihres.1, ?_⟩
            intro pr hpr
            rcases List.mem_cons.mp hpr with hpr1 | hpr2
            · rw [hpr1]; exact h2
            · exact ihres.2 pr hpr2
          · simp only [Bool.not_eq_true] at hund
            simp only [hund]
            exact ⟨h, by intro pr hpr; cases hpr⟩

/-! ### Claim theorems for the walker, the forbid clause, K6 and the parsers -/

/-- C1: after every call to `MOIP::add_solution` during Pareto walking the
set `pareto_` contains no two distinct structures such that one dominates
the other; in particular the set returned at termination of
`MOIP::extend_pareto` contains no element that dominates another. -/
theorem C1_pareto_invariant (oracle : ℕ → ℚ → ℚ → Option Sol)
    (fuel k : ℕ) (lmin lmax : ℚ) (pareto : List Sol)
    (hinv : noDomPairs pareto) :
    (∀ pr ∈ (extendPareto oracle fuel k lmin lmax pareto).2, noDomPairs pr.2) ∧
    noDomPairs (extendPareto oracle fuel k lmin lmax pareto).1 := by
  have h := extendPareto_inv oracle fuel k lmin lmax pareto hinv
  exact ⟨h.2, h.1⟩

theorem C1_pareto_invariant_witness :
    (∀ pr ∈ (extendPareto (fun _ _ _ => some ⟨3, 7⟩) 2 0 0 10 []).2, noDomPairs pr.2) ∧
    noDomPairs (extendPareto (fun _ _ _ => some ⟨3, 7⟩) 2 0 0 10 []).1 :=
  C1_pareto_invariant (fun _ _ _ => some ⟨3, 7⟩) 2 0 0 10 [] trivial

/-- C2: over any run of `MOIP::extend_pareto` against a solver oracle that
respects the ε-constraint window, every structure handed to `add_solution`
has `obj1 ≥ lambdaMin` and the recorded `obj1` values are non-decreasing
(the recursion raises `lambdaMin` to `obj1(s)`). -/
theorem C2_monotone_discovery (oracle : ℕ → ℚ → ℚ → Option Sol)
    (hor : ∀ k a b s, oracle k a b = some s → a ≤ s.obj1 ∧ s.obj1 ≤ b)
    (fuel k : ℕ) (lmin lmax : ℚ) (pareto : List Sol) :
    traceLB lmin (extendPareto oracle fuel k lmin lmax pareto).2 ∧
    traceMono (extendPareto oracle fuel k lmin lmax pareto).2 :=
  extendPareto_trace oracle hor fuel k lmin lmax pareto

theorem C2_monotone_discovery_witness :
    traceLB 0 (extendPareto (fun _ a b => if a ≤ 3 ∧ 3 ≤ b then some ⟨3, 7⟩ else none) 2 0 0 10 []).2 ∧
    traceMono (extendPareto (fun _ a b => if a ≤ 3 ∧ 3 ≤ b then some ⟨3, 7⟩ else none) 2 0 0 10 []).2 :=
  C2_monotone_discovery (fun _ a b => if a ≤ 3 ∧ 3 ≤ b then some ⟨3, 7⟩ else none)
    (by
      intro k a b s h
      dsimp only at h
      by_cases hc : a ≤ 3 ∧ 3 ≤ b
      · rw [if_pos hc] at h
        cases h
        exact hc
      · rw [if_neg hc] at h
        cases h)
    2 0 0 10 []

/-- C3: the forbid clause built in `MOIP::solve_objective` from the solved
assignment `x̂` over all decision variables evaluates to `0` at `x̂` itself
(so `x̂` violates `c ≥ 1`) and is `≥ 1` exactly at the 0/1 assignments
different from `x̂`; hence a solver respecting the appended constraint can
never return `x̂` again. -/
theorem C3_forbid_clause (xhat x : List Bool) (hlen : x.length = xhat.length) :
    forbidSum xhat xhat = 0 ∧ (1 ≤ forbidSum xhat x ↔ x ≠ xhat) := by
  refine ⟨forbidSum_self xhat, ?_⟩
  have h0 := forbidSum_nonneg xhat x
  have hiff := forbidSum_eq_zero_iff xhat x hlen
  constructor
  · intro h1 he
    rw [he] at h1
    rw [forbidSum_self xhat] at h1
    omega
  · intro hne
    by_contra hlt
    exact hne (hiff.mp (by omega))

theorem C3_forbid_clause_witness :
    forbidSum [true, false] [true, false] = 0 ∧
    (1 ≤ forbidSum [true, false] [false, false] ↔ [false, false] ≠ [true, false]) :=
  C3_forbid_clause [true, false] [false, false] (by decide)

/-- C6: when the closing pair of a candidate motif site (first position of
component 0, last position of the last component) is not an allowed
y-variable, the K6 right-hand sum is empty, the posted constraint reads
`C(x,0) ≤ 0`, and every feasible assignment sets `C(x,0) = 0`, i.e. the
motif is never inserted; likewise `C(x,j) = 0` is forced when the pair
joining components `j` and `j+1` is not allowed. -/
theorem C6_K6_empty_sum (allowed yv : ℕ → ℕ → Bool) (cv : ℕ → Bool)
    (comps : List (ℕ × ℕ)) (j : ℕ)
    (hclose : allowed comps.headI.1 (comps.getLastD (0, 0)).2 = false)
    (hinner : allowed (comps.getD j (0, 0)).2 (comps.getD (j + 1) (0, 0)).1 = false) :
    K6rhs allowed yv comps.headI.1 (comps.getLastD (0, 0)).2 = 0 ∧
    (K6closingSat allowed yv cv comps → cv 0 = false) ∧
    (K6innerSat allowed yv cv comps j → cv j = false) := by
  have h1 : K6rhs allowed yv comps.headI.1 (comps.getLastD (0, 0)).2 = 0 := by
    unfold K6rhs
    rw [hclose]
    simp
  have h2 : K6rhs allowed yv (comps.getD j (0, 0)).2 (comps.getD (j + 1) (0, 0)).1 = 0 := by
    unfold K6rhs
    rw [hinner]
    simp
  refine ⟨h1, ?_, ?_⟩
  · intro hs
    unfold K6closingSat at hs
    rw [h1] at hs
    exact boolVal_le_zero hs
  · intro hs
    unfold K6innerSat at hs
    rw [h2] at hs
    exact boolVal_le_zero hs

theorem C6_K6_empty_sum_witness :
    K6rhs (fun _ _ => false) (fun _ _ => true) ([(0, 5), (9, 14)] : List (ℕ × ℕ)).headI.1
      (([(0, 5), (9, 14)] : List (ℕ × ℕ)).getLastD (0, 0)).2 = 0 ∧
    (K6closingSat (fun _ _ => false) (fun _ _ => true) (fun _ => false) [(0, 5), (9, 14)] →
      (fun _ : ℕ => false) 0 = false) ∧
    (K6innerSat (fun _ _ => false) (fun _ _ => true) (fun _ => false) [(0, 5), (9, 14)] 0 →
      (fun _ : ℕ => false) 0 = false) :=
  C6_K6_empty_sum (fun _ _ => false) (fun _ _ => true) (fun _ => false) [(0, 5), (9, 14)] 0 rfl rfl

/-- C9 counterexample: on a links line holding two `';'`-terminated records
the loop cursor advances past the first record and past the second, emptying
the line after two iterations, so the `while (line != "")` loop terminates —
refuting that the loop "never advances its read cursor past the first link
record" and "does not terminate" on lines with more than one record. -/
theorem C9_counterexample :
    consumeLink (consumeLink ("0,1,True;2,3,True;".toList)) = [] := by decide

/-- C9 (amended): each iteration of the links-line loop erases the line up
to and including its first `';'`; the body leaves a nonempty line unchanged
exactly when the line contains no `';'` (then `find` yields `npos`,
`npos + 1` wraps to `0`, `erase(0,0)` is a no-op and the loop spins forever),
and strictly shortens it whenever a `';'` is present, so a line made of
`';'`-terminated records is consumed record by record until empty. -/
theorem C9_link_cursor (l : List Char) (_hne : l ≠ []) :
    (consumeLink l = l ↔ (';') ∉ l) ∧
    ((';') ∈ l → (consumeLink l).length < l.length) := by
  constructor
  · constructor
    · intro heq hmem
      have hlt := dropPastSemi_shorter (l := l) hmem
      rw [consumeLink, if_pos hmem] at heq
      rw [heq] at hlt
      exact lt_irrefl _ hlt
    · intro hnot
      simp [consumeLink, hnot]
  · intro hmem
    rw [consumeLink, if_pos hmem]
    exact dropPastSemi_shorter hmem

theorem C9_link_cursor_witness :
    (consumeLink ("1,2,True;".toList) = "1,2,True;".toList ↔ (';') ∉ "1,2,True;".toList) ∧
    ((';') ∈ "1,2,True;".toList → (consumeLink ("1,2,True;".toList)).length < ("1,2,True;".toList).length) :=
  C9_link_cursor ("1,2,True;".toList) (by decide)

/-- C10 counterexample: two motifs agreeing on identifier, score and reversed
flag, with equal first components but `m2` holding strictly fewer components
than `m1`, drive the comparison loop to read `m2.comp[1]` out of bounds
(the embedded lookup yields no value), refuting that no out-of-bounds
component access occurs for every pair of inputs. -/
theorem C10_counterexample :
    motifEq
      ⟨MotifSource.RNA3DMOTIF, "", "", "pdb1", 5, false,
        [⟨(1, 4), 4, "GG"⟩, ⟨(9, 12), 4, "CC"⟩]⟩
      ⟨MotifSource.RNA3DMOTIF, "", "", "pdb1", 5, false,
        [⟨(1, 4), 4, "GG"⟩]⟩ = none := by decide

/-- C10 (amended): the comparison loop of `operator==(Motif, Motif)` runs
over `m1.comp.size()` indices reading both vectors, so every component
access is in bounds precisely when `m2` has at least as many components as
`m1`; in that case the comparison always yields a value. -/
theorem C10_motifEq_inbounds (m1 m2 : Motif) (h : m1.comp.length ≤ m2.comp.length) :
    (motifEq m1 m2).isSome = true := by
  unfold motifEq
  split_ifs <;> simp [compsCheck_isSome h]

theorem C10_motifEq_inbounds_witness :
    (motifEq
      ⟨MotifSource.CARNAVAL, "", "7", "", 2, true, [⟨(3, 6), 4, "AU"⟩]⟩
      ⟨MotifSource.CARNAVAL, "", "7", "", 2, true, [⟨(3, 6), 4, "AU"⟩, ⟨(8, 11), 4, "GC"⟩]⟩).isSome = true :=
  C10_motifEq_inbounds _ _ (by decide)

/-! ### Sequence model and energy parameters (`rna.cpp`)

The enum constants and physical constants of `rna.h` and the thermodynamic
blob `rna1995.h` are not among the sources.  Modelled from the spec: the
tables are opaque immutable constants, so they are carried as an explicit
`EnergyModel` argument, and the enum codes are fixed to distinct small
values consistent with every source use site (`BASE_X - 1` indexes 4-entry
tables for X ∈ {A,C,G,U}, `pair_map` is a 5×5 matrix, pair codes index
6-entry tables). -/

def BASE_N : ℕ := 0
def BASE_A : ℕ := 1
def BASE_C : ℕ := 2
def BASE_G : ℕ := 3
def BASE_U : ℕ := 4

def PAIR_AU : ℕ := 0
def PAIR_UA : ℕ := 1
def PAIR_CG : ℕ := 2
def PAIR_GC : ℕ := 3
def PAIR_GU : ℕ := 4
def PAIR_UG : ℕ := 5
def PAIR_OTHER : ℕ := 6

/-- `RNA::base_type` (`rna.cpp` lines 611-618). -/
def base_type (x : Char) : ℕ :=
  if x = 'a' ∨ x = 'A' then BASE_A
  else if x = 'c' ∨ x = 'C' then BASE_C
  else if x = 'g' ∨ x = 'G' then BASE_G
  else if x = 'u' ∨ x = 'U' then BASE_U
  else BASE_N

/-- The nucleotide-code sequence `bseq_` built by the RNA constructor
(`rna.cpp` lines 411-423): `'T'`/`'t'` are rewritten to `'U'` before the
code lookup. -/
def bseqOf (sq : List Char) : List ℕ :=
  sq.map fun c => base_type (if c = 'T' ∨ c = 't' then 'U' else c)

/-- Read `bseq_[k]`. -/
def bs (sq : List Char) (k : ℕ) : ℕ := (bseqOf sq).getD k BASE_N

/-- Read the raw character `seq_[k]` (the constructor stores the input
string unchanged in `seq_`). -/
def chrAt (sq : List Char) (k : ℕ) : Char := sq.getD k 'N'

/-- `pair_map` as initialized in the RNA constructor (`rna.cpp` 409,
430-435): six entries are set, every other ordered pair of codes maps to
`PAIR_OTHER`. -/
def pairMap (a b : ℕ) : ℕ :=
  if a = BASE_A ∧ b = BASE_U then PAIR_AU
  else if a = BASE_U ∧ b = BASE_A then PAIR_UA
  else if a = BASE_C ∧ b = BASE_G then PAIR_CG
  else if a = BASE_G ∧ b = BASE_C then PAIR_GC
  else if a = BASE_G ∧ b = BASE_U then PAIR_GU
  else if a = BASE_U ∧ b = BASE_G then PAIR_UG
  else PAIR_OTHER

/-- `RNA::pair_type(int, int)` — the pair code of the ordered nucleotide
pair at positions `i`, `j`. -/
def pairTypeSeq (sq : List Char) (i j : ℕ) : ℕ := pairMap (bs sq i) (bs sq j)

/-- `RNA::allowed_basepair` (`rna.cpp` lines 734-743): a purely positional
test — `b - a ≥ 4`, `a < n - 4`, `b < n`; the nucleotide letters are never
consulted. -/
def rnaAllowedBasepair (n u v : ℕ) : Bool :=
  decide (4 ≤ max u v - min u v) && decide (min u v < n - 4) && decide (max u v < n)

/-- The nearest-neighbor parameter set `nrjp_` (fields of `rna.h`, values
from the opaque blob; `RT` stands for `kB * AVOGADRO * (ZERO_C_IN_KELVIN +
37.0)`, whose constants live in the missing header). -/
structure EnergyModel where
  stack37 : ℕ → ℕ → ℝ
  hairpin37 : ℕ → ℝ
  bulge37 : ℕ → ℝ
  interior37 : ℕ → ℝ
  asymmetry_penalty : ℕ → ℝ
  max_asymmetry : ℝ
  mismatch_hairpin37 : ℕ → ℕ → ℕ → ℝ
  mismatch_interior37 : ℕ → ℕ → ℕ → ℝ
  salt_correction : ℝ
  loop_greater30 : ℝ
  hairpin_GGG : ℝ
  triloop37 : ℕ → ℕ → ℕ → ℕ → ℕ → ℝ
  tloop37 : ℕ → ℕ → ℕ → ℕ → ℕ → ℕ → ℝ
  a1 : ℝ
  a2 : ℝ
  a3 : ℝ
  at_penalty : ℝ
  int11_37 : ℕ → ℕ → ℕ → ℕ → ℝ
  int22_37 : ℕ → ℕ → ℕ → ℕ → ℕ → ℕ → ℝ
  int21_37 : ℕ → ℕ → ℕ → ℕ → ℕ → ℝ
  polyC_penalty : ℝ
  polyC_slope : ℝ
  polyC_int : ℝ
  pk_stack_span : ℝ
  pk_interior_span : ℝ
  RT : ℝ

/-- A representative parameter set — every energy zero, `RT = 1`.  The spec
treats the table values as opaque; statements proved for an arbitrary
`EnergyModel` are instantiated here. -/
def zeroEM : EnergyModel where
  stack37 := fun _ _ => 0
  hairpin37 := fun _ => 0
  bulge37 := fun _ => 0
  interior37 := fun _ => 0
  asymmetry_penalty := fun _ => 0
  max_asymmetry := 0
  mismatch_hairpin37 := fun _ _ _ => 0
  mismatch_interior37 := fun _ _ _ => 0
  salt_correction := 0
  loop_greater30 := 0
  hairpin_GGG := 0
  triloop37 := fun _ _ _ _ _ => 0
  tloop37 := fun _ _ _ _ _ _ => 0
  a1 := 0
  a2 := 0
  a3 := 0
  at_penalty := 0
  int11_37 := fun _ _ _ _ => 0
  int22_37 := fun _ _ _ _ _ _ => 0
  int21_37 := fun _ _ _ _ _ => 0
  polyC_penalty := 0
  polyC_slope := 0
  polyC_int := 0
  pk_stack_span := 0
  pk_interior_span := 0
  RT := 1

/-- The Boltzmann factor `exp(-g / RT)` used by every recursion. -/
noncomputable def boltz (em : EnergyModel) (g : ℝ) : ℝ := Real.exp (-g / em.RT)

theorem boltz_pos (em : EnergyModel) (g : ℝ) : 0 < boltz em g := Real.exp_pos _

/-- `RNA::Gpenalty` (`rna.cpp` 600-603). -/
def Gpenalty (em : EnergyModel) (sq : List Char) (i j : ℕ) : ℝ :=
  if pairTypeSeq sq i j = PAIR_AU ∨ pairTypeSeq sq i j = PAIR_UA then em.at_penalty else 0

/-- `RNA::Gloop` (`rna.cpp` 729-732). -/
noncomputable def Gloop (em : EnergyModel) (l : ℕ) : ℝ :=
  if l ≤ 30 then em.interior37 (l - 1)
  else em.interior37 29 + em.loop_greater30 * Real.log ((l : ℝ) / 30)

/-- `RNA::GIL_mismatch(uint, uint, uint, uint)` (`rna.cpp` 591-594). -/
def GILmismatch (em : EnergyModel) (sq : List Char) (i j k l : ℕ) : ℝ :=
  em.mismatch_interior37 (bs sq k - 1) (bs sq l - 1) (pairTypeSeq sq i j)

/-- `RNA::GIL_mismatch(uint, uint)` (`rna.cpp` 596). -/
def GILmismatchN (em : EnergyModel) (sq : List Char) (i j : ℕ) : ℝ :=
  em.mismatch_interior37 BASE_N BASE_N (pairTypeSeq sq i j)

/-- `RNA::GIL_asymmetry` (`rna.cpp` 605-609). -/
noncomputable def GILasymmetry (em : EnergyModel) (l1 l2 : ℕ) : ℝ :=
  Gloop em (l1 + l2) +
    min em.max_asymmetry
      ((↑(max l1 l2 - min l1 l2)) * em.asymmetry_penalty (min 4 (min l1 l2) - 1))

/-- The poly-C detection loop of `RNA::GHL` (`rna.cpp` 636-642): it compares
the raw character `seq_[k]` — an ASCII code, promoted to `int` — with the
enum constant `BASE_C`. -/
def polyCflag (sq : List Char) (i j : ℕ) : Bool :=
  (natRange (i + 1) (j - 1)).all fun k => (chrAt sq k).toNat == BASE_C

/-- `RNA::GHL` (`rna.cpp` 633-666), hairpin loop closed at `(i, j)`. -/
noncomputable def GHL (em : EnergyModel) (sq : List Char) (i j : ℕ) : ℝ :=
  let polyC := polyCflag sq i j
  let size := j - i - 1
  (if size ≤ 30 then em.hairpin37 (size - 1)
   else em.hairpin37 29 + em.loop_greater30 * Real.log ((size : ℝ) / 30)) +
  (if size = 3 then
     Gpenalty em sq i j
     + em.triloop37 (bs sq i - 1) (bs sq (i + 1) - 1) (bs sq (i + 2) - 1)
         (bs sq (j - 1) - 1) (bs sq j - 1)
     + (if polyC then em.polyC_penalty else 0)
     + (if bs sq (i + 1) = BASE_G ∧ bs sq (i + 2) = BASE_G ∧ bs sq (j - 1) = BASE_G
        then em.hairpin_GGG else 0)
   else if size = 4 then
     em.tloop37 (bs sq i - 1) (bs sq (i + 1) - 1) (bs sq (i + 2) - 1)
       (bs sq (j - 2) - 1) (bs sq (j - 1) - 1) (bs sq j - 1)
     + em.mismatch_hairpin37 (bs sq (i + 1) - 1) (bs sq (j - 1) - 1) (pairTypeSeq sq i j)
     + (if polyC then em.polyC_slope * (size : ℝ) + em.polyC_int else 0)
   else
     em.mismatch_hairpin37 (bs sq (i + 1) - 1) (bs sq (j - 1) - 1) (pairTypeSeq sq i j)
     + (if polyC then em.polyC_slope * (size : ℝ) + em.polyC_int else 0))

/-- `RNA::GIL` (`rna.cpp` 668-727), interior/bulge/stack energy for the
outer pair `(i, j)` enclosing the inner pair `(h, m)`. -/
noncomputable def GIL (em : EnergyModel) (sq : List Char) (i h m j : ℕ) (pk : Bool) : ℝ :=
  let l1 := h - i - 1
  let l2 := j - m - 1
  let size := l1 + l2
  if size = 0 then
    em.stack37 (pairTypeSeq sq i j) (pairTypeSeq sq h m) * (if pk then em.pk_stack_span else 1)
  else
    let e :=
      if l1 = 0 ∨ l2 = 0 then
        (if size ≤ 30 then em.bulge37 (size - 1)
         else em.bulge37 29 + em.loop_greater30 * Real.log ((size : ℝ) / 30)) +
        (if size = 1 then em.stack37 (pairTypeSeq sq i j) (pairTypeSeq sq h m) - em.salt_correction
         else Gpenalty em sq i j + Gpenalty em sq h m)
      else
        if 1 < max l1 l2 - min l1 l2 ∨ 4 < size then
          GILasymmetry em l1 l2 +
            (if 1 < l1 ∧ 1 < l2 then
               GILmismatch em sq m h (m + 1) (h - 1) + GILmismatch em sq i j (i + 1) (j - 1)
             else if l1 = 1 ∨ l2 = 1 then GILmismatchN em sq m h + GILmismatchN em sq i j
             else 0)
        else if l1 = 1 ∧ l2 = 1 then
          em.int11_37 (pairTypeSeq sq i j) (pairTypeSeq sq h m) (bs sq (i + 1) - 1) (bs sq (j - 1) - 1)
        else if l1 = 2 ∧ l2 = 2 then
          em.int22_37 (pairTypeSeq sq i j) (pairTypeSeq sq h m) (bs sq (i + 1) - 1)
            (bs sq (j - 1) - 1) (bs sq (i + 2) - 1) (bs sq (j - 2) - 1)
        else if l1 = 1 ∧ l2 = 2 then
          em.int21_37 (pairTypeSeq sq i j) (bs sq (j - 2) - 1) (bs sq (i + 1) - 1)
            (pairTypeSeq sq h m) (bs sq (j - 1) - 1)
        else if l1 = 2 ∧ l2 = 1 then
          em.int21_37 (pairTypeSeq sq m h) (bs sq (i + 1) - 1) (bs sq (j - 1) - 1)
            (pairTypeSeq sq j i) (bs sq (i + 2) - 1)
        else 0
    e * (if pk then em.pk_interior_span else 1)

/-! ### Claim C8: the poly-C hairpin term -/

/-- All-zero parameters except a unit poly-C penalty: isolates the poly-C
term of `GHL`. -/
def polyCEM : EnergyModel := { zeroEM with polyC_penalty := 1 }

def sqGCCCG : List Char := ['G', 'C', 'C', 'C', 'G']

/-- C8: the hairpin closed at `(0, 4)` of `GCCCG` has `size = 3` and every
loop nucleotide is `C`, yet `GHL` omits the poly-C term: the detection loop
compares the raw character `seq_[k]` (ASCII `'C'` = 67, promoted to `int`)
with the enum constant `BASE_C`, so `polyC` is always false on letter input
and no `polyC_penalty` (nor, for `size ≥ 4`, `polyC_slope·size + polyC_int`)
is ever added — with every other table zero and `polyC_penalty = 1` the
returned energy is `0` where the claimed behavior yields `1`. -/
theorem C8_polyC_term_dropped :
    (∀ k ∈ natRange 1 3, chrAt sqGCCCG k = 'C') ∧
    polyCflag sqGCCCG 0 4 = false ∧
    polyCEM.polyC_penalty = 1 ∧
    GHL polyCEM sqGCCCG 0 4 = 0 := by
  refine ⟨by decide, by decide, rfl, ?_⟩
  have hpc : polyCflag sqGCCCG 0 4 = false := by decide
  have hpt : pairTypeSeq sqGCCCG 0 4 = PAIR_OTHER := by decide
  simp [GHL, hpc, Gpenalty, hpt, polyCEM, zeroEM, PAIR_OTHER, PAIR_AU, PAIR_UA]

/-! ### Claim C5: parity of the O(n⁴) and O(n³) engines -/

/-- The energy the O(n³) engine's fast-GIL path attributes to a generic
interior loop (`L1, L2 ≥ 4`) seeded and consumed in the same pass: the Qx
seed of `compute_partition_function_noPK_ON3` (`rna.cpp` 859/863),
`GIL_asymmetry(L1, L2) + GIL_mismatch(d, e, d+1, e-1)`, plus the closing
mismatch `GIL_mismatch(i, j, i+1, j-1)` applied when Qx is converted to Qb
(`rna.cpp` 870). -/
noncomputable def fastGILenergy (em : EnergyModel) (sq : List Char) (i d e j : ℕ) : ℝ :=
  GILasymmetry em (d - i - 1) (j - e - 1) + GILmismatch em sq d e (d + 1) (e - 1) +
    GILmismatch em sq i j (i + 1) (j - 1)

/-- Parameters that differ only on the mismatch-interior entry read by the
two engines: `mismatch_interior37[a][b][·]` is `1` at `a = b = BASE_C - 1`
and `0` elsewhere. -/
def em5 : EnergyModel :=
  { zeroEM with mismatch_interior37 := fun a b _ => if a = 1 ∧ b = 1 then 1 else 0 }

def sq15 : List Char :=
  ['A', 'A', 'A', 'A', 'C', 'A', 'A', 'A', 'A', 'A', 'C', 'A', 'A', 'A', 'A']

/-- C5: for the interior loop with outer pair `(0, 14)` and inner pair
`(5, 9)` (so `L1 = L2 = 4`) of the sequence `AAAACAAAAACAAAA`, the energy
the O(n⁴) recursion applies through `GIL` — whose inner-pair mismatch is
`GIL_mismatch(e, d, e+1, d-1)` — and the energy the O(n³) fast-GIL path
applies — whose Qx seed uses `GIL_mismatch(d, e, d+1, e-1)` — differ, and
therefore so do the Boltzmann weights the two engines accumulate for this
loop into `Qb(0, 14)` and, through it, into `Q(0, n-1)`. -/
theorem C5_fastGIL_divergence :
    GIL em5 sq15 0 5 9 14 false ≠ fastGILenergy em5 sq15 0 5 9 14 ∧
    boltz em5 (GIL em5 sq15 0 5 9 14 false) ≠ boltz em5 (fastGILenergy em5 sq15 0 5 9 14) := by
  have h10 : bs sq15 10 = 2 := by decide
  have h4 : bs sq15 4 = 2 := by decide
  have h6 : bs sq15 6 = 1 := by decide
  have h8 : bs sq15 8 = 1 := by decide
  have h1 : bs sq15 1 = 1 := by decide
  have h13 : bs sq15 13 = 1 := by decide
  have hg : GIL em5 sq15 0 5 9 14 false = 1 := by
    simp [GIL, GILasymmetry, Gloop, GILmismatch, em5, zeroEM, h10, h4, h1, h13]
  have hf : fastGILenergy em5 sq15 0 5 9 14 = 0 := by
    simp [fastGILenergy, GILasymmetry, Gloop, GILmismatch, em5, zeroEM, h6, h8, h1, h13]
  rw [hg, hf]
  refine ⟨by norm_num, ?_⟩
  intro hcon
  unfold boltz at hcon
  rw [Real.exp_eq_exp] at hcon
  have hrt : em5.RT = 1 := rfl
  rw [hrt] at hcon
  norm_num at hcon

/-! ### The O(n⁴) pseudoknot-free partition function
(`RNA::compute_partition_function_noPK_ON4`, `rna.cpp` 745-812).

Matrices are total functions `ℕ → ℕ → ℝ`; each cell `(i, j)` is written
exactly once, during the pass for its subsequence length `l = j - i + 1`.
The OpenMP loop over `i` writes disjoint cells and reads only cells of
strictly shorter subsequences, so the sequential fold computes the same
matrices.  For `j = i + l - 1` the cell computes, in source order,
`Qb(i,j)`, then `Qm(i,j)` (which reads the freshly written `Qb(i,j)`),
then `Q(i,j)`. -/

structure PFState where
  Q : ℕ → ℕ → ℝ
  Qb : ℕ → ℕ → ℝ
  Qm : ℕ → ℕ → ℝ

/-- Write `v` at entry `(i, j)` of a matrix. -/
def updM (M : ℕ → ℕ → ℝ) (i j : ℕ) (v : ℝ) : ℕ → ℕ → ℝ :=
  fun p q => if p = i ∧ q = j then v else M p q

/-- Sum of `f` over an index list (a C accumulation loop). -/
def sumList (l : List ℕ) (f : ℕ → ℝ) : ℝ := (l.map f).sum

/-- `Qb(i, j) = exp(-GHL(i,j)/RT) + Σ_{d,e} Qb(d,e)·exp(-GIL(i,d,e,j)/RT)
+ [d-i ≥ 2] Qb(d,e)·Qm(i+1,d-1)·exp(-(a1+2a2+(j-e-1)a3)/RT)`, the interior
sum only when `l ≥ 7` (`rna.cpp` 775-783). -/
noncomputable def qbON4 (em : EnergyModel) (sq : List Char) (l i : ℕ) (st : PFState) : ℝ :=
  boltz em (GHL em sq i (i + l - 1)) +
    (if 7 ≤ l then
       sumList (natRange (i + 1) (i + l - 1 - 5)) fun d =>
         sumList (natRange (d + 4) (i + l - 1 - 1)) fun e =>
           st.Qb d e * boltz em (GIL em sq i d e (i + l - 1) false) +
           (if i + 2 ≤ d then
              st.Qb d e * st.Qm (i + 1) (d - 1) *
                boltz em (em.a1 + 2 * em.a2 + (↑(i + l - 1 - e - 1)) * em.a3)
            else 0)
     else 0)

/-- `Qm(i, j)` (`rna.cpp` 786-790), reading the freshly written `Qb(i,j)`. -/
noncomputable def qmON4 (em : EnergyModel) (sq : List Char) (l i : ℕ) (st : PFState) : ℝ :=
  sumList (natRange i (i + l - 1 - 4)) fun d =>
    sumList (natRange (d + 4) (i + l - 1)) fun e =>
      updM st.Qb i (i + l - 1) (qbON4 em sq l i st) d e *
        boltz em (em.a2 + em.a3 * ↑(d - i + (i + l - 1 - e))) +
      (if i < d then
         updM st.Qb i (i + l - 1) (qbON4 em sq l i st) d e * st.Qm i (d - 1) *
           boltz em (em.a2 + em.a3 * ↑(i + l - 1 - e))
       else 0)

/-- `Q(i, j) = 1 + Σ_{d,e} (Q(i,d-1) if d > i else 1)·Qb(d,e)`
(`rna.cpp` 793-799). -/
noncomputable def qON4 (em : EnergyModel) (sq : List Char) (l i : ℕ) (st : PFState) : ℝ :=
  1 + sumList (natRange i (i + l - 1 - 4)) fun d =>
    sumList (natRange (d + 4) (i + l - 1)) fun e =>
      if i < d then st.Q i (d - 1) * updM st.Qb i (i + l - 1) (qbON4 em sq l i st) d e
      else updM st.Qb i (i + l - 1) (qbON4 em sq l i st) d e

/-- One iteration of the parallel `i` loop at subsequence length `l`. -/
noncomputable def cellON4 (em : EnergyModel) (sq : List Char) (l i : ℕ) (st : PFState) : PFState :=
  { Q := updM st.Q i (i + l - 1) (qON4 em sq l i st),
    Qb := updM st.Qb i (i + l - 1) (qbON4 em sq l i st),
    Qm := updM st.Qm i (i + l - 1) (qmON4 em sq l i st) }

/-- Seeds written before the main loop (`rna.cpp` 763-767): `Q(i,i+1) = 1`
for `i < n-1` and `Q(i, i+l-1) = 1` for `l ∈ {3,4}`, `i ≤ n-l`; all other
entries of all three matrices start at zero. -/
def initPF (n : ℕ) : PFState :=
  { Q := fun i j => if j < n ∧ (j = i + 1 ∨ j = i + 2 ∨ j = i + 3) then 1 else 0,
    Qb := fun _ _ => 0,
    Qm := fun _ _ => 0 }

/-- The loop `for (i = 0; i <= n - l; i++)` at fixed length `l`. -/
noncomputable def passON4 (em : EnergyModel) (sq : List Char) (n l : ℕ) (st : PFState) : PFState :=
  (natRange 0 (n - l)).foldl (fun s i => cellON4 em sq l i s) st

/-- The outer loop `for (l = 5; l <= n; l++)` applied to the seeded state:
the Q/Qb/Qm matrices of `compute_partition_function_noPK_ON4`. -/
noncomputable def pfON4 (em : EnergyModel) (sq : List Char) : PFState :=
  (natRange 5 sq.length).foldl (fun s l => passON4 em sq sq.length l s) (initPF sq.length)

/-- All three matrices are everywhere nonnegative. -/
def NNpf (st : PFState) : Prop :=
  ∀ p q, 0 ≤ st.Q p q ∧ 0 ≤ st.Qb p q ∧ 0 ≤ st.Qm p q

/-- Every already-computed cell (basepair-distance ≥ 4, inside the strand,
subsequence length ≤ L) carries a positive `Qb` and `Qm` and a `Q ≥ 1`. -/
def donePos (n L : ℕ) (st : PFState) : Prop :=
  ∀ p q, p + 4 ≤ q → q < n → q + 1 ≤ p + L →
    0 < st.Qb p q ∧ 0 < st.Qm p q ∧ 1 ≤ st.Q p q

theorem updM_self (M : ℕ → ℕ → ℝ) (i j : ℕ) (v : ℝ) : updM M i j v i j = v := by
  simp [updM]

theorem updM_ne (M : ℕ → ℕ → ℝ) {i j p q : ℕ} (v : ℝ) (h : ¬(p = i ∧ q = j)) :
    updM M i j v p q = M p q := by
  simp only [updM, if_neg h]

theorem updM_nonneg {M : ℕ → ℕ → ℝ} {v : ℝ} (hM : ∀ p q, 0 ≤ M p q) (hv : 0 ≤ v)
    (i j : ℕ) : ∀ p q, 0 ≤ updM M i j v p q := by
  intro p q
  unfold updM
  split
  · exact hv
  · exact hM p q

theorem sumList_nonneg {l : List ℕ} {f : ℕ → ℝ} (h : ∀ x ∈ l, 0 ≤ f x) :
    0 ≤ sumList l f :=
  List.sum_nonneg (by
    intro y hy
    rcases List.mem_map.mp hy with ⟨x, hx, rfl⟩
    exact h x hx)

theorem le_sumList {l : List ℕ} {f : ℕ → ℝ} {x : ℕ} (hx : x ∈ l)
    (h : ∀ y ∈ l, 0 ≤ f y) : f x ≤ sumList l f :=
  List.single_le_sum (by
    intro y hy
    rcases List.mem_map.mp hy with ⟨z, hz, rfl⟩
    exact h z hz) _ (List.mem_map_of_mem f hx)

theorem qbON4_pos (em : EnergyModel) (sq : List Char) (l i : ℕ) {st : PFState}
    (h : NNpf st) : 0 < qbON4 em sq l i st := by
  unfold qbON4
  refine add_pos_of_pos_of_nonneg (boltz_pos em _) ?_
  split
  · apply sumList_nonneg
    intro d _
    apply sumList_nonneg
    intro e _
    refine add_nonneg (mul_nonneg (h d e).2.1 (boltz_pos em _).le) ?_
    split
    · exact mul_nonneg (mul_nonneg (h d e).2.1 (h (i + 1) (d - 1)).2.2) (boltz_pos em _).le
    · exact le_refl 0
  · exact le_refl 0

theorem qb1_nonneg (em : EnergyModel) (sq : List Char) (l i : ℕ) {st : PFState}
    (h : NNpf st) :
    ∀ p q, 0 ≤ updM st.Qb i (i + l - 1) (qbON4 em sq l i st) p q :=
  updM_nonneg (fun p q => (h p q).2.1) (qbON4_pos em sq l i h).le i (i + l - 1)

theorem qmON4_nonneg (em : EnergyModel) (sq : List Char) (l i : ℕ) {st : PFState}
    (h : NNpf st) : 0 ≤ qmON4 em sq l i st := by
  unfold qmON4
  apply sumList_nonneg
  intro d _
  apply sumList_nonneg
  intro e _
  refine add_nonneg (mul_nonneg (qb1_nonneg em sq l i h d e) (boltz_pos em _).le) ?_
  split
  · exact mul_nonneg (mul_nonneg (qb1_nonneg em sq l i h d e) (h i (d - 1)).2.2)
      (boltz_pos em _).le
  · exact le_refl 0

theorem qON4_ge_one (em : EnergyModel) (sq : List Char) (l i : ℕ) {st : PFState}
    (h : NNpf st) : 1 ≤ qON4 em sq l i st := by
  unfold qON4
  refine le_add_of_nonneg_right ?_
  apply sumList_nonneg
  intro d _
  apply sumList_nonneg
  intro e _
  split
  · exact mul_nonneg (h i (d - 1)).1 (qb1_nonneg em sq l i h d e)
  · exact qb1_nonneg em sq l i h d e

theorem qmON4_pos (em : EnergyModel) (sq : List Char) {l i : ℕ} {st : PFState}
    (h : NNpf st) (hl : 5 ≤ l) (hQb : l = 5 ∨ 0 < st.Qb i (i + 4)) :
    0 < qmON4 em sq l i st := by
  unfold qmON4
  refine lt_of_lt_of_le ?_
    (le_sumList (x := i) (mem_natRange.mpr ⟨le_refl i, by omega⟩) ?_)
  · refine lt_of_lt_of_le ?_
      (le_sumList (x := i + 4) (mem_natRange.mpr ⟨le_refl _, by omega⟩) ?_)
    · rw [if_neg (lt_irrefl i), add_zero]
      refine mul_pos ?_ (boltz_pos em _)
      by_cases h5 : l = 5
      · have hj : i + l - 1 = i + 4 := by omega
        rw [hj, updM_self]
        exact qbON4_pos em sq l i h
      · rw [updM_ne _ _ (by intro hc; exact h5 (by omega))]
        rcases hQb with h5' | hpos
        · exact absurd h5' h5
        · exact hpos
    · intro e _
      refine add_nonneg (mul_nonneg (qb1_nonneg em sq l i h i e) (boltz_pos em _).le) ?_
      rw [if_neg (lt_irrefl i)]
  · intro d _
    apply sumList_nonneg
    intro e _
    refine add_nonneg (mul_nonneg (qb1_nonneg em sq l i h d e) (boltz_pos em _).le) ?_
    split
    · exact mul_nonneg (mul_nonneg (qb1_nonneg em sq l i h d e) (h i (d - 1)).2.2)
        (boltz_pos em _).le
    · exact le_refl 0

theorem cellON4_NN (em : EnergyModel) (sq : List Char) (l i : ℕ) {st : PFState}
    (h : NNpf st) : NNpf (cellON4 em sq l i st) := by
  intro p q
  unfold cellON4
  refine ⟨?_, ?_, ?_⟩
  · exact updM_nonneg (fun p q => (h p q).1)
      (le_trans zero_le_one (qON4_ge_one em sq l i h)) i (i + l - 1) p q
  · exact qb1_nonneg em sq l i h p q
  · exact updM_nonneg (fun p q => (h p q).2.2) (qmON4_nonneg em sq l i h) i (i + l - 1) p q

theorem cellON4_frame (em : EnergyModel) (sq : List Char) (l i : ℕ) (st : PFState)
    {p q : ℕ} (h : ¬(p = i ∧ q = i + l - 1)) :
    (cellON4 em sq l i st).Q p q = st.Q p q ∧
    (cellON4 em sq l i st).Qb p q = st.Qb p q ∧
    (cellON4 em sq l i st).Qm p q = st.Qm p q := by
  unfold cellON4
  exact ⟨updM_ne _ _ h, updM_ne _ _ h, updM_ne _ _ h⟩

theorem cellON4_estab (em : EnergyModel) (sq : List Char) {n l x : ℕ}
    (hl : 5 ≤ l) (hln : l ≤ n) (hx : x ≤ n - l) {s : PFState}
    (hNN : NNpf s) (hdone : donePos n (l - 1) s) :
    0 < (cellON4 em sq l x s).Qb x (x + l - 1) ∧
    0 < (cellON4 em sq l x s).Qm x (x + l - 1) ∧
    1 ≤ (cellON4 em sq l x s).Q x (x + l - 1) := by
  unfold cellON4
  dsimp only
  refine ⟨?_, ?_, ?_⟩
  · rw [updM_self]
    exact qbON4_pos em sq l x hNN
  · rw [updM_self]
    apply qmON4_pos em sq hNN hl
    by_cases h5 : l = 5
    · exact Or.inl h5
    · refine Or.inr (hdone x (x + 4) (by omega) (by omega) (by omega)).1
  · rw [updM_self]
    exact qON4_ge_one em sq l x hNN

theorem passON4_spec (em : EnergyModel) (sq : List Char) {n l : ℕ}
    (hl : 5 ≤ l) (hln : l ≤ n) {st : PFState}
    (hNN : NNpf st) (hdone : donePos n (l - 1) st) :
    NNpf (passON4 em sq n l st) ∧ donePos n l (passON4 em sq n l st) := by
  have hmain := foldl_estab
    (P := fun s => NNpf s ∧ donePos n (l - 1) s)
    (Q := fun x s => 0 < s.Qb x (x + l - 1) ∧ 0 < s.Qm x (x + l - 1) ∧ 1 ≤ s.Q x (x + l - 1))
    (fun s i => cellON4 em sq l i s) (natRange 0 (n - l))
    (by
      intro s x _ hP
      refine ⟨cellON4_NN em sq l x hP.1, ?_⟩
      intro p q h4 hn hspan
      have hne : ¬(p = x ∧ q = x + l - 1) := by
        intro hc
        omega
      have hfr := cellON4_frame em sq l x s hne
      rw [hfr.1, hfr.2.1, hfr.2.2]
      exact hP.2 p q h4 hn hspan)
    (by
      intro s x hx hP
      exact cellON4_estab em sq hl hln (mem_natRange.mp hx).2 hP.1 hP.2)
    (by
      intro s x y hx hP hQ
      by_cases hxy : y = x
      · subst hxy
        exact cellON4_estab em sq hl hln (mem_natRange.mp hx).2 hP.1 hP.2
      · have hne : ¬(y = x ∧ y + l - 1 = x + l - 1) := by
          intro hc
          exact hxy hc.1
        have hfr := cellON4_frame em sq l x s hne
        rw [hfr.1, hfr.2.1, hfr.2.2]
        exact hQ)
    st ⟨hNN, hdone⟩
  refine ⟨hmain.1.1, ?_⟩
  intro p q h4 hn hspan
  by_cases hsp : q + 1 ≤ p + (l - 1)
  · exact hmain.1.2 p q h4 hn hsp
  · have hq : q = p + l - 1 := by omega
    have hp : p ≤ n - l := by omega
    have := hmain.2 p (mem_natRange.mpr ⟨Nat.zero_le p, hp⟩)
    rw [hq]
    exact this

theorem natRange_snoc {a b : ℕ} (h : a ≤ b + 1) :
    natRange a (b + 1) = natRange a b ++ [b + 1] := by
  unfold natRange
  have h2 : b + 1 + 1 - a = (b + 1 - a) + 1 := by omega
  rw [h2, List.range_succ, List.map_append, List.map_cons, List.map_nil]
  have h3 : a + (b + 1 - a) = b + 1 := by omega
  rw [h3]

theorem initPF_NN (n : ℕ) : NNpf (initPF n) := by
  intro p q
  refine ⟨?_, le_refl 0, le_refl 0⟩
  unfold initPF
  dsimp only
  split
  · exact zero_le_one
  · exact le_refl 0

theorem initPF_done (n : ℕ) : donePos n 4 (initPF n) := by
  intro p q h4 _ hspan
  omega

theorem pfON4_fold (em : EnergyModel) (sq : List Char) (n : ℕ) :
    ∀ b : ℕ, 4 ≤ b → b ≤ n →
      NNpf ((natRange 5 b).foldl (fun s l => passON4 em sq n l s) (initPF n)) ∧
      donePos n b ((natRange 5 b).foldl (fun s l => passON4 em sq n l s) (initPF n)) := by
  intro b
  induction b with
  | zero => intro h; omega
  | succ c ih =>
      intro h4 hn
      by_cases hc : c = 3
      · subst hc
        have hempty : natRange 5 4 = [] := by decide
        rw [hempty]
        exact ⟨initPF_NN n, initPF_done n⟩
      · have hc4 : 4 ≤ c := by omega
        have ihres := ih hc4 (by omega)
        rw [natRange_snoc (by omega), List.foldl_append]
        simp only [List.foldl_cons, List.foldl_nil]
        have := passON4_spec em sq (l := c + 1) (by omega) hn ihres.1
          (by
            have h5 : c + 1 - 1 = c := by omega
            rw [h5]
            exact ihres.2)
        exact this

/-- Positivity of the computed O(n⁴) tables: every cell `(i, j)` with
`i + 4 ≤ j < n` holds `Qb > 0`, `Qm > 0` and `Q ≥ 1`. -/
theorem pfON4_pos (em : EnergyModel) (sq : List Char) {i j : ℕ}
    (h4 : i + 4 ≤ j) (hn : j < sq.length) :
    0 < (pfON4 em sq).Qb i j ∧ 0 < (pfON4 em sq).Qm i j ∧ 1 ≤ (pfON4 em sq).Q i j := by
  have hfold := pfON4_fold em sq sq.length sq.length (by omega) (le_refl _)
  exact hfold.2 i j h4 hn (by omega)

/-! ### The posterior back-recursion
(`RNA::compute_posterior_noPK_ON4`, `rna.cpp` 1289-1356).

One state per matrix triple `(P, Pm, Pb)`; the pass order mirrors the
source: `l` from `n` down to `1`, `i` ascending, and within a window
`(i, j)` first the `P`/`Pm` distribution loop (lines 1320-1340) and then
the `Qb`-guarded `Pb` loop (lines 1343-1352).  The engine matrices are
those of `compute_partition_function_noPK_ON4` (the `fast = false` branch).
Note line 1330 is embedded with the source's own parenthesization
`exp(-(a2 + a3 * (d - i + j - e) / RT))`, whose `/RT` sits inside the
outer sum. -/

structure PostState where
  P : ℕ → ℕ → ℝ
  Pm : ℕ → ℕ → ℝ
  Pb : ℕ → ℕ → ℝ

noncomputable def post1 (em : EnergyModel) (pf : PFState) (i j d e : ℕ) (st : PostState) : PostState :=
  let dP1 := if i < d then st.P i j * pf.Q i (d - 1) * pf.Qb d e / pf.Q i j
             else st.P i j * pf.Qb d e / pf.Q i j
  let st1 : PostState :=
    { st with P := if i < d then updM st.P i (d - 1) (st.P i (d - 1) + dP1) else st.P }
  let st2 : PostState := { st1 with Pb := updM st1.Pb d e (st1.Pb d e + dP1) }
  let st3 : PostState := { st2 with Pb := updM st2.Pb d e (st2.Pb d e +
      st2.Pm i j * Real.exp (-(em.a2 + em.a3 * ↑(d - i + (j - e)) / em.RT)) * pf.Qb d e / pf.Qm i j) }
  let dP2 := if i < d then
      st3.Pm i j * pf.Qm i (d - 1) * pf.Qb d e * boltz em (em.a2 + em.a3 * ↑(j - e)) / pf.Qm i j
    else st3.Pm i j * pf.Qb d e * boltz em (em.a2 + em.a3 * ↑(j - e)) / pf.Qm i j
  let st4 : PostState :=
    { st3 with Pm := if i < d then updM st3.Pm i (d - 1) (st3.Pm i (d - 1) + dP2) else st3.Pm }
  { st4 with Pb := updM st4.Pb d e (st4.Pb d e + dP2) }

noncomputable def post2 (em : EnergyModel) (sq : List Char) (pf : PFState) (i j d e : ℕ)
    (st : PostState) : PostState :=
  if 0 < pf.Qb i j then
    let st1 : PostState := { st with Pb := updM st.Pb d e (st.Pb d e +
        st.Pb i j * pf.Qb d e * boltz em (GIL em sq i d e j false) / pf.Qb i j) }
    let dP := st1.Pb i j * pf.Qm (i + 1) (d - 1) * pf.Qb d e *
        boltz em (em.a1 + 2 * em.a2 + ↑(j - e - 1) * em.a3) / pf.Qb i j
    let st2 : PostState :=
      { st1 with Pm := updM st1.Pm (i + 1) (d - 1) (st1.Pm (i + 1) (d - 1) + dP) }
    { st2 with Pb := updM st2.Pb d e (st2.Pb d e + dP) }
  else st

noncomputable def postBlock1 (em : EnergyModel) (pf : PFState) (i j : ℕ) (st : PostState) : PostState :=
  (natRange i (j - 4)).foldl
    (fun s d => (natRange (d + 4) j).foldl (fun s2 e => post1 em pf i j d e s2) s) st

noncomputable def postBlock2 (em : EnergyModel) (sq : List Char) (pf : PFState) (i j : ℕ)
    (st : PostState) : PostState :=
  (natRange (i + 1) (j - 5)).foldl
    (fun s d => (natRange (d + 4) (j - 1)).foldl (fun s2 e => post2 em sq pf i j d e s2) s) st

noncomputable def postCell (em : EnergyModel) (sq : List Char) (pf : PFState) (l i : ℕ)
    (st : PostState) : PostState :=
  postBlock2 em sq pf i (i + l - 1) (postBlock1 em pf i (i + l - 1) st)

noncomputable def postPass (em : EnergyModel) (sq : List Char) (pf : PFState) (n l : ℕ)
    (st : PostState) : PostState :=
  (natRange 0 (n - l)).foldl (fun s i => postCell em sq pf l i s) st

noncomputable def posteriorON4 (em : EnergyModel) (sq : List Char) : ℕ → ℕ → ℝ :=
  ((natRange 1 sq.length).reverse.foldl
    (fun s l => postPass em sq (pfON4 em sq) sq.length l s)
    { P := fun p q => if p = 0 ∧ q = sq.length - 1 then 1 else 0,
      Pm := fun _ _ => 0,
      Pb := fun _ _ => 0 }).Pb

theorem foldl_id {α σ : Type} (l : List α) (s : σ) : l.foldl (fun s _ => s) s = s := by
  induction l with
  | nil => rfl
  | cons x xs ih => exact ih

theorem natRange_empty {a b : ℕ} (h : b < a) : natRange a b = [] := by
  unfold natRange
  have h2 : b + 1 - a = 0 := by omega
  rw [h2]
  rfl

theorem postCell_short (em : EnergyModel) (sq : List Char) (pf : PFState) {l : ℕ} (i : ℕ)
    (hl : l < 5) (st : PostState) : postCell em sq pf l i st = st := by
  unfold postCell postBlock2 postBlock1
  rw [natRange_empty (a := i + 1) (by omega)]
  rw [List.foldl_nil]
  refine (List.foldl_ext _ (fun s _ => s) st ?_).trans (foldl_id _ _)
  intro s d hd
  rw [natRange_empty (by
    have := (mem_natRange.mp hd).1
    omega)]
  rfl

theorem postPass_short (em : EnergyModel) (sq : List Char) (pf : PFState) {n l : ℕ}
    (hl : l < 5) (st : PostState) : postPass em sq pf n l st = st := by
  unfold postPass
  refine (List.foldl_ext _ (fun s _ => s) st ?_).trans (foldl_id _ _)
  intro s i _
  exact postCell_short em sq pf i hl s

def sqA5 : List Char := ['A', 'A', 'A', 'A', 'A']

theorem pfA5 (em : EnergyModel) :
    pfON4 em sqA5 = cellON4 em sqA5 5 0 (initPF 5) := by
  have h1 : natRange 5 sqA5.length = [5] := by decide
  have h2 : natRange 0 (5 - 5) = [0] := by decide
  unfold pfON4 passON4
  rw [h1]
  simp only [List.foldl_cons, List.foldl_nil]
  rw [show sqA5.length = 5 from rfl, h2]
  simp only [List.foldl_cons, List.foldl_nil]

theorem pfA5_Qb (em : EnergyModel) :
    (pfON4 em sqA5).Qb 0 4 = boltz em (GHL em sqA5 0 4) := by
  rw [pfA5]
  unfold cellON4
  dsimp only
  rw [show (0 : ℕ) + 5 - 1 = 4 from rfl, updM_self]
  unfold qbON4
  norm_num

theorem pfA5_Q (em : EnergyModel) :
    (pfON4 em sqA5).Q 0 4 = 1 + boltz em (GHL em sqA5 0 4) := by
  have hqb : qbON4 em sqA5 5 0 (initPF 5) = boltz em (GHL em sqA5 0 4) := by
    unfold qbON4
    norm_num
  rw [pfA5]
  unfold cellON4
  dsimp only
  rw [show (0 : ℕ) + 5 - 1 = 4 from rfl, updM_self]
  unfold qON4
  rw [show (0 : ℕ) + 5 - 1 = 4 from rfl]
  have hr1 : natRange 0 (4 - 4) = [0] := by decide
  have hr2 : natRange (0 + 4) 4 = [4] := by decide
  rw [hr1]
  simp only [sumList, List.map_cons, List.map_nil, List.sum_cons, List.sum_nil]
  rw [hr2]
  simp only [List.map_cons, List.map_nil, List.sum_cons, List.sum_nil]
  rw [updM_self]
  norm_num [hqb]

theorem posteriorA5 (em : EnergyModel) :
    posteriorON4 em sqA5 0 4 =
      boltz em (GHL em sqA5 0 4) / (1 + boltz em (GHL em sqA5 0 4)) := by
  unfold posteriorON4
  have hrev : (natRange 1 sqA5.length).reverse = [5, 4, 3, 2, 1] := by decide
  rw [hrev]
  simp only [List.foldl_cons, List.foldl_nil]
  rw [postPass_short em sqA5 _ (by omega : (4 : ℕ) < 5),
      postPass_short em sqA5 _ (by omega : (3 : ℕ) < 5),
      postPass_short em sqA5 _ (by omega : (2 : ℕ) < 5),
      postPass_short em sqA5 _ (by omega : (1 : ℕ) < 5)]
  unfold postPass
  rw [show sqA5.length = 5 from rfl]
  have hr0 : natRange 0 (5 - 5) = [0] := by decide
  rw [hr0]
  simp only [List.foldl_cons, List.foldl_nil]
  unfold postCell
  rw [show (0 : ℕ) + 5 - 1 = 4 from rfl]
  unfold postBlock2
  rw [natRange_empty (a := 0 + 1) (by omega), List.foldl_nil]
  unfold postBlock1
  have hr1 : natRange 0 (4 - 4) = [0] := by decide
  have hr2 : natRange (0 + 4) 4 = [4] := by decide
  rw [hr1]
  simp only [List.foldl_cons, List.foldl_nil]
  rw [hr2]
  simp only [List.foldl_cons, List.foldl_nil]
  unfold post1
  simp only [lt_irrefl, if_false, updM_self]
  rw [pfA5_Qb, pfA5_Q]
  simp [updM]

/-- The `Pb` matrix is zero on every pair closer than the minimal hairpin
distance (both recursions only ever add mass at `(d, e)` with `e ≥ d + 4`). -/
def PbFar (st : PostState) : Prop := ∀ p q, q < p + 4 → st.Pb p q = 0

theorem post1_PbFar (em : EnergyModel) (pf : PFState) {i j d e : ℕ} (he : d + 4 ≤ e)
    {st : PostState} (h : PbFar st) : PbFar (post1 em pf i j d e st) := by
  intro p q hq
  unfold post1
  dsimp only
  rw [updM_ne _ _ (by omega), updM_ne _ _ (by omega), updM_ne _ _ (by omega)]
  exact h p q hq

theorem post2_PbFar (em : EnergyModel) (sq : List Char) (pf : PFState) {i j d e : ℕ}
    (he : d + 4 ≤ e) {st : PostState} (h : PbFar st) :
    PbFar (post2 em sq pf i j d e st) := by
  intro p q hq
  unfold post2
  split
  · dsimp only
    rw [updM_ne _ _ (by omega), updM_ne _ _ (by omega)]
    exact h p q hq
  · exact h p q hq

theorem postBlock1_PbFar (em : EnergyModel) (pf : PFState) (i j : ℕ) {st : PostState}
    (h : PbFar st) : PbFar (postBlock1 em pf i j st) := by
  unfold postBlock1
  refine foldl_keep _ _ ?_ st h
  intro s d _ hs
  refine foldl_keep _ _ ?_ s hs
  intro s2 e he hs2
  exact post1_PbFar em pf (mem_natRange.mp he).1 hs2

theorem postBlock2_PbFar (em : EnergyModel) (sq : List Char) (pf : PFState) (i j : ℕ)
    {st : PostState} (h : PbFar st) : PbFar (postBlock2 em sq pf i j st) := by
  unfold postBlock2
  refine foldl_keep _ _ ?_ st h
  intro s d _ hs
  refine foldl_keep _ _ ?_ s hs
  intro s2 e he hs2
  exact post2_PbFar em sq pf (mem_natRange.mp he).1 hs2

theorem postPass_PbFar (em : EnergyModel) (sq : List Char) (pf : PFState) (n l : ℕ)
    {st : PostState} (h : PbFar st) : PbFar (postPass em sq pf n l st) := by
  unfold postPass
  refine foldl_keep _ _ ?_ st h
  intro s i _ hs
  exact postBlock2_PbFar em sq pf _ _ (postBlock1_PbFar em pf _ _ hs)

theorem postTop_PbFar (em : EnergyModel) (sq : List Char) (ls : List ℕ) {st : PostState}
    (h : PbFar st) :
    PbFar (ls.foldl (fun s l => postPass em sq (pfON4 em sq) sq.length l s) st) := by
  refine foldl_keep _ _ ?_ st h
  intro s l _ hs
  exact postPass_PbFar em sq _ sq.length l hs

/-- C4 counterexample: on the sequence `AAAAA` the posterior of the
pseudoknot-free engines at `(0, 4)` is positive although `(A, A)` is not
one of the six pairable nucleotide pairs — `RNA::allowed_basepair` accepts
`(0, 4)` on distance alone, `GHL` gives the A-hairpin a finite energy, so
`Qb(0,4) = exp(-GHL/RT) > 0` and `p(0,4) = Qb(0,4)/(1 + Qb(0,4)) ≠ 0` for
every parameter table (instantiated here at the representative table). -/
theorem C4_counterexample :
    rnaAllowedBasepair 5 0 4 = true ∧
    pairTypeSeq sqA5 0 4 = PAIR_OTHER ∧
    posteriorON4 zeroEM sqA5 0 4 ≠ 0 := by
  refine ⟨by decide, by decide, ?_⟩
  rw [posteriorA5 zeroEM]
  have hb := boltz_pos zeroEM (GHL zeroEM sqA5 0 4)
  have hden : (0 : ℝ) < 1 + boltz zeroEM (GHL zeroEM sqA5 0 4) := by linarith
  exact ne_of_gt (div_pos hb hden)

/-- C4 (amended): the computed posterior satisfies `p(i, j) = 0` whenever
`|i - j| < 4` (indeed whenever `j < i + 4`): both posterior loops add mass
to `Pb` only at pairs `(d, e)` with `e ≥ d + 4`.  The nucleotide-pair
clause of the claim does not hold — `RNA::allowed_basepair` checks only
positions, and the engines give every hairpin a positive Boltzmann weight
regardless of the letters (see the counterexample). -/
theorem C4_short_range_zero (em : EnergyModel) (sq : List Char) (i j : ℕ)
    (hij : j < i + 4) : posteriorON4 em sq i j = 0 := by
  unfold posteriorON4
  exact postTop_PbFar em sq _ (fun p q _ => rfl) i j hij

theorem C4_short_range_zero_witness : posteriorON4 zeroEM sqA5 2 3 = 0 :=
  C4_short_range_zero zeroEM sqA5 2 3 (by decide)

/-! ### The O(n³) pseudoknot-free partition function
(`RNA::compute_partition_function_noPK_ON3`, `rna.cpp` 815-910).

Eight matrices: `Q`, `Qb`, `Qm`, `Qs`, `Qms` (one write per cell, at its
length pass) and the rolling fast-GIL slabs `Qx`, `Qx1`, `Qx2`, shifted
once per length (`Qx = Qx1; Qx1 = Qx2; Qx2 = 0`, lines 846-848).  Within a
cell the source order is: seed `Qx` and write `Qx2` (lines 853-866, only
for `l ≥ 15`), then `Qb`, `Qs`, `Qms` (which read the fresh `Qb(i,j)`),
then `Qm` (reading the fresh `Qms(i,j)`) and `Q` (reading the fresh
`Qs(i,j)`). -/

structure PF3 where
  Q : ℕ → ℕ → ℝ
  Qb : ℕ → ℕ → ℝ
  Qm : ℕ → ℕ → ℝ
  Qs : ℕ → ℕ → ℝ
  Qms : ℕ → ℕ → ℝ
  Qx : ℕ → ℕ → ℝ
  Qx1 : ℕ → ℕ → ℝ
  Qx2 : ℕ → ℕ → ℝ

/-- The two `Qx` seeding loops (`rna.cpp` 854-863): entries with `L1 = 4,
L2 ≥ 4` (fixed `d = i+5`) and `L2 = 4, L1 ≥ 4` (fixed `e = j-5`), recorded
at slab column `L1 + L2` with weight `exp(-(GIL_asymmetry(L1, L2) +
GIL_mismatch(d, e, d+1, e-1))/RT)`. -/
noncomputable def qxSeed (em : EnergyModel) (sq : List Char) (l i : ℕ) (st : PF3) :
    ℕ → ℕ → ℝ :=
  if 15 ≤ l then
    (natRange (i + 6) (i + l - 1 - 9)).foldl
      (fun M d => updM M i (d - i - 1 + 4) (M i (d - i - 1 + 4) +
        st.Qb d (i + l - 1 - 5) *
          boltz em (GILasymmetry em (d - i - 1) 4 +
            GILmismatch em sq d (i + l - 1 - 5) (d + 1) (i + l - 1 - 6))))
      ((natRange (i + 9) (i + l - 1 - 5)).foldl
        (fun M e => updM M i (4 + (i + l - 1 - e - 1)) (M i (4 + (i + l - 1 - e - 1)) +
          st.Qb (i + 5) e *
            boltz em (GILasymmetry em 4 (i + l - 1 - e - 1) +
              GILmismatch em sq (i + 5) e (i + 6) (e - 1))))
        st.Qx)
  else st.Qx

/-- The `Qx2` aging writes (`rna.cpp` 864-865): each slab column `s` of the
current row is copied one diagonal out, at column `s + 2`, scaled by
`exp(-(Gloop(s+2) - Gloop(s))/RT)`; plain assignment, not accumulation. -/
noncomputable def qx2Upd (em : EnergyModel) (sq : List Char) (n l i : ℕ) (st : PF3) :
    ℕ → ℕ → ℝ :=
  if 15 ≤ l ∧ 0 < i ∧ i + l - 1 ≠ n then
    (natRange 8 (l - 7)).foldl
      (fun M s => updM M (i - 1) (s + 2)
        (qxSeed em sq l i st i s * boltz em (Gloop em (s + 2) - Gloop em s)))
      st.Qx2
  else st.Qx2

/-- `Qb(i,j)` of the O(n³) engine (`rna.cpp` 867-878): hairpin, the
`Qx`-to-`Qb` conversion with the closing mismatch, the three families of
small/asymmetric interior-loop special cases computed via full `GIL`, and
the multiloop term `Qm(i+1,d-1)·Qms(d,j-1)·exp(-(a1+a2)/RT)`. -/
noncomputable def qb3 (em : EnergyModel) (sq : List Char) (l i : ℕ) (st : PF3) : ℝ :=
  boltz em (GHL em sq i (i + l - 1)) +
  sumList (natRange 8 (l - 7)) (fun s =>
    qxSeed em sq l i st i s *
      boltz em (GILmismatch em sq i (i + l - 1) (i + 1) (i + l - 1 - 1))) +
  sumList (natRange (i + 1) (i + 4)) (fun d =>
    sumList (natRange (max (d + 4) (i + l - 1 - 4)) (i + l - 1 - 1)) (fun e =>
      st.Qb d e * boltz em (GIL em sq i d e (i + l - 1) false))) +
  sumList (natRange (i + 1) (i + 4)) (fun d =>
    sumList (natRange (d + 4) (i + l - 1 - 5)) (fun e =>
      st.Qb d e * boltz em (GIL em sq i d e (i + l - 1) false))) +
  sumList (natRange (i + l - 1 - 4) (i + l - 1 - 1)) (fun e =>
    sumList (natRange (i + 5) (e - 4)) (fun d =>
      boltz em (GIL em sq i d e (i + l - 1) false) * st.Qb d e)) +
  sumList (natRange (i + 6) (i + l - 1 - 5)) (fun d =>
    st.Qm (i + 1) (d - 1) * st.Qms d (i + l - 1 - 1) * boltz em (em.a1 + em.a2))

/-- `Qs(i,j) = Σ_{d=i+4..j} Qb(i,d)` (`rna.cpp` 881), reading the freshly
written `Qb(i,j)`. -/
noncomputable def qs3 (em : EnergyModel) (sq : List Char) (l i : ℕ) (st : PF3) : ℝ :=
  sumList (natRange (i + 4) (i + l - 1)) fun d =>
    updM st.Qb i (i + l - 1) (qb3 em sq l i st) i d

/-- `Qms(i,j) = Σ_{d=i+4..j} Qb(i,d)·exp(-(a2 + a3(j-d))/RT)`
(`rna.cpp` 884). -/
noncomputable def qms3 (em : EnergyModel) (sq : List Char) (l i : ℕ) (st : PF3) : ℝ :=
  sumList (natRange (i + 4) (i + l - 1)) fun d =>
    updM st.Qb i (i + l - 1) (qb3 em sq l i st) i d *
      boltz em (em.a2 + em.a3 * ↑(i + l - 1 - d))

/-- `Qm(i,j)` (`rna.cpp` 887-890), reading the freshly written `Qms(i,j)`
at `d = i` and earlier-pass `Qms(d,j)` otherwise. -/
noncomputable def qm3 (em : EnergyModel) (sq : List Char) (l i : ℕ) (st : PF3) : ℝ :=
  sumList (natRange i (i + l - 1 - 4)) fun d =>
    updM st.Qms i (i + l - 1) (qms3 em sq l i st) d (i + l - 1) *
      boltz em (em.a3 * ↑(d - i)) +
    (if i < d then
       updM st.Qms i (i + l - 1) (qms3 em sq l i st) d (i + l - 1) * st.Qm i (d - 1)
     else 0)

/-- `Q(i,j) = 1 + Σ_{d=i..j-4} (Q(i,d-1)·Qs(d,j) if d > i else Qs(d,j))`
(`rna.cpp` 893-898). -/
noncomputable def q3 (em : EnergyModel) (sq : List Char) (l i : ℕ) (st : PF3) : ℝ :=
  1 + sumList (natRange i (i + l - 1 - 4)) fun d =>
    if i < d then st.Q i (d - 1) * updM st.Qs i (i + l - 1) (qs3 em sq l i st) d (i + l - 1)
    else updM st.Qs i (i + l - 1) (qs3 em sq l i st) d (i + l - 1)

/-- One iteration of the `i` loop of the O(n³) engine at length `l`. -/
noncomputable def cellON3 (em : EnergyModel) (sq : List Char) (n l i : ℕ) (st : PF3) : PF3 :=
  { Q := updM st.Q i (i + l - 1) (q3 em sq l i st),
    Qb := updM st.Qb i (i + l - 1) (qb3 em sq l i st),
    Qm := updM st.Qm i (i + l - 1) (qm3 em sq l i st),
    Qs := updM st.Qs i (i + l - 1) (qs3 em sq l i st),
    Qms := updM st.Qms i (i + l - 1) (qms3 em sq l i st),
    Qx := qxSeed em sq l i st,
    Qx1 := st.Qx1,
    Qx2 := qx2Upd em sq n l i st }

/-- The per-length slab rotation followed by the `i` loop. -/
noncomputable def passON3 (em : EnergyModel) (sq : List Char) (n l : ℕ) (st : PF3) : PF3 :=
  (natRange 0 (n - l)).foldl (fun s i => cellON3 em sq n l i s)
    { st with Qx := st.Qx1, Qx1 := st.Qx2, Qx2 := fun _ _ => 0 }

/-- Seeds of the O(n³) engine (`rna.cpp` 839-842), identical to the O(n⁴)
ones on `Q`; every other matrix starts at zero. -/
def initPF3 (n : ℕ) : PF3 :=
  { Q := fun i j => if j < n ∧ (j = i + 1 ∨ j = i + 2 ∨ j = i + 3) then 1 else 0,
    Qb := fun _ _ => 0, Qm := fun _ _ => 0, Qs := fun _ _ => 0, Qms := fun _ _ => 0,
    Qx := fun _ _ => 0, Qx1 := fun _ _ => 0, Qx2 := fun _ _ => 0 }

/-- The matrices of `compute_partition_function_noPK_ON3` — the engine the
default configuration (`fast = true`) feeds into the posterior. -/
noncomputable def pfON3 (em : EnergyModel) (sq : List Char) : PF3 :=
  (natRange 5 sq.length).foldl (fun s l => passON3 em sq sq.length l s) (initPF3 sq.length)

/-- All eight matrices nonnegative. -/
def NN3 (st : PF3) : Prop :=
  ∀ p q, 0 ≤ st.Q p q ∧ 0 ≤ st.Qb p q ∧ 0 ≤ st.Qm p q ∧ 0 ≤ st.Qs p q ∧
    0 ≤ st.Qms p q ∧ 0 ≤ st.Qx p q ∧ 0 ≤ st.Qx1 p q ∧ 0 ≤ st.Qx2 p q

/-- Positivity of the already-computed cells of the O(n³) engine. -/
def donePos3 (n L : ℕ) (st : PF3) : Prop :=
  ∀ p q, p + 4 ≤ q → q < n → q + 1 ≤ p + L →
    0 < st.Qb p q ∧ 0 < st.Qm p q ∧ 1 ≤ st.Q p q

theorem qxSeed_nonneg (em : EnergyModel) (sq : List Char) (l i : ℕ) {st : PF3}
    (h : NN3 st) : ∀ p q, 0 ≤ qxSeed em sq l i st p q := by
  unfold qxSeed
  split
  · refine foldl_keep (σ := ℕ → ℕ → ℝ) (P := fun M => ∀ p q, (0 : ℝ) ≤ M p q) _ _ ?_ _ ?_
    · intro M d _ hM
      refine updM_nonneg hM ?_ _ _
      exact add_nonneg (hM _ _) (mul_nonneg (h _ _).2.1 (boltz_pos em _).le)
    · refine foldl_keep (σ := ℕ → ℕ → ℝ) (P := fun M => ∀ p q, (0 : ℝ) ≤ M p q) _ _ ?_ _ ?_
      · intro M e _ hM
        refine updM_nonneg hM ?_ _ _
        exact add_nonneg (hM _ _) (mul_nonneg (h _ _).2.1 (boltz_pos em _).le)
      · intro p q
        exact (h p q).2.2.2.2.2.1
  · intro p q
    exact (h p q).2.2.2.2.2.1

theorem qx2Upd_nonneg (em : EnergyModel) (sq : List Char) (n l i : ℕ) {st : PF3}
    (h : NN3 st) : ∀ p q, 0 ≤ qx2Upd em sq n l i st p q := by
  unfold qx2Upd
  split
  · refine foldl_keep (σ := ℕ → ℕ → ℝ) (P := fun M => ∀ p q, (0 : ℝ) ≤ M p q) _ _ ?_ _ ?_
    · intro M s _ hM
      exact updM_nonneg hM
        (mul_nonneg (qxSeed_nonneg em sq l i h i s) (boltz_pos em _).le) _ _
    · intro p q
      exact (h p q).2.2.2.2.2.2.2
  · intro p q
    exact (h p q).2.2.2.2.2.2.2

theorem qb3_pos (em : EnergyModel) (sq : List Char) (l i : ℕ) {st : PF3}
    (h : NN3 st) : 0 < qb3 em sq l i st := by
  unfold qb3
  refine add_pos_of_pos_of_nonneg ?_ ?_
  · refine add_pos_of_pos_of_nonneg ?_ ?_
    · refine add_pos_of_pos_of_nonneg ?_ ?_
      · refine add_pos_of_pos_of_nonneg ?_ ?_
        · refine add_pos_of_pos_of_nonneg (boltz_pos em _) ?_
          apply sumList_nonneg
          intro s _
          exact mul_nonneg (qxSeed_nonneg em sq l i h i s) (boltz_pos em _).le
        · apply sumList_nonneg
          intro d _
          apply sumList_nonneg
          intro e _
          exact mul_nonneg (h d e).2.1 (boltz_pos em _).le
      · apply sumList_nonneg
        intro d _
        apply sumList_nonneg
        intro e _
        exact mul_nonneg (h d e).2.1 (boltz_pos em _).le
    · apply sumList_nonneg
      intro e _
      apply sumList_nonneg
      intro d _
      exact mul_nonneg (boltz_pos em _).le (h d e).2.1
  · apply sumList_nonneg
    intro d _
    exact mul_nonneg (mul_nonneg (h (i + 1) (d - 1)).2.2.1 (h d (i + l - 1 - 1)).2.2.2.2.1)
      (boltz_pos em _).le

theorem qb31_nonneg (em : EnergyModel) (sq : List Char) (l i : ℕ) {st : PF3}
    (h : NN3 st) :
    ∀ p q, 0 ≤ updM st.Qb i (i + l - 1) (qb3 em sq l i st) p q :=
  updM_nonneg (fun p q => (h p q).2.1) (qb3_pos em sq l i h).le i (i + l - 1)

theorem qs3_nonneg (em : EnergyModel) (sq : List Char) (l i : ℕ) {st : PF3}
    (h : NN3 st) : 0 ≤ qs3 em sq l i st := by
  unfold qs3
  apply sumList_nonneg
  intro d _
  exact qb31_nonneg em sq l i h i d

theorem qms3_nonneg (em : EnergyModel) (sq : List Char) (l i : ℕ) {st : PF3}
    (h : NN3 st) : 0 ≤ qms3 em sq l i st := by
  unfold qms3
  apply sumList_nonneg
  intro d _
  exact mul_nonneg (qb31_nonneg em sq l i h i d) (boltz_pos em _).le

theorem qms3_pos (em : EnergyModel) (sq : List Char) {l i : ℕ} {st : PF3}
    (h : NN3 st) (hl : 5 ≤ l) (hQb : l = 5 ∨ 0 < st.Qb i (i + 4)) :
    0 < qms3 em sq l i st := by
  unfold qms3
  refine lt_of_lt_of_le ?_
    (le_sumList (x := i + 4) (mem_natRange.mpr ⟨le_refl _, by omega⟩) ?_)
  · refine mul_pos ?_ (boltz_pos em _)
    by_cases h5 : l = 5
    · have hj : i + l - 1 = i + 4 := by omega
      rw [hj, updM_self]
      exact qb3_pos em sq l i h
    · rw [updM_ne _ _ (by intro hc; exact h5 (by omega))]
      rcases hQb with h5' | hpos
      · exact absurd h5' h5
      · exact hpos
  · intro e _
    exact mul_nonneg (qb31_nonneg em sq l i h i e) (boltz_pos em _).le

theorem qm3_nonneg (em : EnergyModel) (sq : List Char) (l i : ℕ) {st : PF3}
    (h : NN3 st) : 0 ≤ qm3 em sq l i st := by
  unfold qm3
  apply sumList_nonneg
  intro d _
  have hqms1 : ∀ p q, 0 ≤ updM st.Qms i (i + l - 1) (qms3 em sq l i st) p q :=
    updM_nonneg (fun p q => (h p q).2.2.2.2.1) (qms3_nonneg em sq l i h) i (i + l - 1)
  refine add_nonneg (mul_nonneg (hqms1 _ _) (boltz_pos em _).le) ?_
  split
  · exact mul_nonneg (hqms1 _ _) (h i (d - 1)).2.2.1
  · exact le_refl 0

theorem qm3_pos (em : EnergyModel) (sq : List Char) {l i : ℕ} {st : PF3}
    (h : NN3 st) (hl : 5 ≤ l) (hQb : l = 5 ∨ 0 < st.Qb i (i + 4)) :
    0 < qm3 em sq l i st := by
  unfold qm3
  have hqms1 : ∀ p q, 0 ≤ updM st.Qms i (i + l - 1) (qms3 em sq l i st) p q :=
    updM_nonneg (fun p q => (h p q).2.2.2.2.1) (qms3_nonneg em sq l i h) i (i + l - 1)
  refine lt_of_lt_of_le ?_
    (le_sumList (x := i) (mem_natRange.mpr ⟨le_refl i, by omega⟩) ?_)
  · rw [if_neg (lt_irrefl i), add_zero, updM_self]
    exact mul_pos (qms3_pos em sq h hl hQb) (boltz_pos em _)
  · intro d _
    refine add_nonneg (mul_nonneg (hqms1 _ _) (boltz_pos em _).le) ?_
    split
    · exact mul_nonneg (hqms1 _ _) (h i (d - 1)).2.2.1
    · exact le_refl 0

theorem q3_ge_one (em : EnergyModel) (sq : List Char) (l i : ℕ) {st : PF3}
    (h : NN3 st) : 1 ≤ q3 em sq l i st := by
  unfold q3
  refine le_add_of_nonneg_right ?_
  apply sumList_nonneg
  intro d _
  have hqs1 : ∀ p q, 0 ≤ updM st.Qs i (i + l - 1) (qs3 em sq l i st) p q :=
    updM_nonneg (fun p q => (h p q).2.2.2.1) (qs3_nonneg em sq l i h) i (i + l - 1)
  split
  · exact mul_nonneg (h i (d - 1)).1 (hqs1 _ _)
  · exact hqs1 _ _

theorem cellON3_NN (em : EnergyModel) (sq : List Char) (n l i : ℕ) {st : PF3}
    (h : NN3 st) : NN3 (cellON3 em sq n l i st) := by
  intro p q
  unfold cellON3
  dsimp only
  refine ⟨?_, ?_, ?_, ?_, ?_, ?_, ?_, ?_⟩
  · exact updM_nonneg (fun p q => (h p q).1)
      (le_trans zero_le_one (q3_ge_one em sq l i h)) i (i + l - 1) p q
  · exact qb31_nonneg em sq l i h p q
  · exact updM_nonneg (fun p q => (h p q).2.2.1) (qm3_nonneg em sq l i h) i (i + l - 1) p q
  · exact updM_nonneg (fun p q => (h p q).2.2.2.1) (qs3_nonneg em sq l i h) i (i + l - 1) p q
  · exact updM_nonneg (fun p q => (h p q).2.2.2.2.1) (qms3_nonneg em sq l i h) i (i + l - 1) p q
  · exact qxSeed_nonneg em sq l i h p q
  · exact (h p q).2.2.2.2.2.2.1
  · exact qx2Upd_nonneg em sq n l i h p q

theorem cellON3_frame (em : EnergyModel) (sq : List Char) (n l i : ℕ) (st : PF3)
    {p q : ℕ} (h : ¬(p = i ∧ q = i + l - 1)) :
    (cellON3 em sq n l i st).Q p q = st.Q p q ∧
    (cellON3 em sq n l i st).Qb p q = st.Qb p q ∧
    (cellON3 em sq n l i st).Qm p q = st.Qm p q := by
  unfold cellON3
  exact ⟨updM_ne _ _ h, updM_ne _ _ h, updM_ne _ _ h⟩

theorem cellON3_estab (em : EnergyModel) (sq : List Char) {n l x : ℕ}
    (hl : 5 ≤ l) (hln : l ≤ n) (hx : x ≤ n - l) {s : PF3}
    (hNN : NN3 s) (hdone : donePos3 n (l - 1) s) :
    0 < (cellON3 em sq n l x s).Qb x (x + l - 1) ∧
    0 < (cellON3 em sq n l x s).Qm x (x + l - 1) ∧
    1 ≤ (cellON3 em sq n l x s).Q x (x + l - 1) := by
  unfold cellON3
  dsimp only
  refine ⟨?_, ?_, ?_⟩
  · rw [updM_self]
    exact qb3_pos em sq l x hNN
  · rw [updM_self]
    apply qm3_pos em sq hNN hl
    by_cases h5 : l = 5
    · exact Or.inl h5
    · refine Or.inr (hdone x (x + 4) (by omega) (by omega) (by omega)).1
  · rw [updM_self]
    exact q3_ge_one em sq l x hNN

theorem passON3_spec (em : EnergyModel) (sq : List Char) {n l : ℕ}
    (hl : 5 ≤ l) (hln : l ≤ n) {st : PF3}
    (hNN : NN3 st) (hdone : donePos3 n (l - 1) st) :
    NN3 (passON3 em sq n l st) ∧ donePos3 n l (passON3 em sq n l st) := by
  have hNNsh : NN3 { st with Qx := st.Qx1, Qx1 := st.Qx2, Qx2 := fun _ _ => 0 } := by
    intro p q
    have h := hNN p q
    exact ⟨h.1, h.2.1, h.2.2.1, h.2.2.2.1, h.2.2.2.2.1,
      h.2.2.2.2.2.2.1, h.2.2.2.2.2.2.2, le_refl 0⟩
  have hdonesh : donePos3 n (l - 1) { st with Qx := st.Qx1, Qx1 := st.Qx2, Qx2 := fun _ _ => 0 } :=
    hdone
  have hmain := foldl_estab
    (P := fun s => NN3 s ∧ donePos3 n (l - 1) s)
    (Q := fun x s => 0 < s.Qb x (x + l - 1) ∧ 0 < s.Qm x (x + l - 1) ∧ 1 ≤ s.Q x (x + l - 1))
    (fun s i => cellON3 em sq n l i s) (natRange 0 (n - l))
    (by
      intro s x _ hP
      refine ⟨cellON3_NN em sq n l x hP.1, ?_⟩
      intro p q h4 hn hspan
      have hne : ¬(p = x ∧ q = x + l - 1) := by
        intro hc
        omega
      have hfr := cellON3_frame em sq n l x s hne
      rw [hfr.1, hfr.2.1, hfr.2.2]
      exact hP.2 p q h4 hn hspan)
    (by
      intro s x hx hP
      exact cellON3_estab em sq hl hln (mem_natRange.mp hx).2 hP.1 hP.2)
    (by
      intro s x y hx hP hQ
      by_cases hxy : y = x
      · subst hxy
        exact cellON3_estab em sq hl hln (mem_natRange.mp hx).2 hP.1 hP.2
      · have hne : ¬(y = x ∧ y + l - 1 = x + l - 1) := by
          intro hc
          exact hxy hc.1
        have hfr := cellON3_frame em sq n l x s hne
        rw [hfr.1, hfr.2.1, hfr.2.2]
        exact hQ)
    _ ⟨hNNsh, hdonesh⟩
  refine ⟨hmain.1.1, ?_⟩
  intro p q h4 hn hspan
  by_cases hsp : q + 1 ≤ p + (l - 1)
  · exact hmain.1.2 p q h4 hn hsp
  · have hq : q = p + l - 1 := by omega
    have hp : p ≤ n - l := by omega
    have := hmain.2 p (mem_natRange.mpr ⟨Nat.zero_le p, hp⟩)
    rw [hq]
    exact this

theorem initPF3_NN (n : ℕ) : NN3 (initPF3 n) := by
  intro p q
  refine ⟨?_, le_refl 0, le_refl 0, le_refl 0, le_refl 0, le_refl 0, le_refl 0, le_refl 0⟩
  unfold initPF3
  dsimp only
  split
  · exact zero_le_one
  · exact le_refl 0

theorem initPF3_done (n : ℕ) : donePos3 n 4 (initPF3 n) := by
  intro p q h4 _ hspan
  omega

theorem pfON3_fold (em : EnergyModel) (sq : List Char) (n : ℕ) :
    ∀ b : ℕ, 4 ≤ b → b ≤ n →
      NN3 ((natRange 5 b).foldl (fun s l => passON3 em sq n l s) (initPF3 n)) ∧
      donePos3 n b ((natRange 5 b).foldl (fun s l => passON3 em sq n l s) (initPF3 n)) := by
  intro b
  induction b with
  | zero => intro h; omega
  | succ c ih =>
      intro h4 hn
      by_cases hc : c = 3
      · subst hc
        have hempty : natRange 5 4 = [] := by decide
        rw [hempty]
        exact ⟨initPF3_NN n, initPF3_done n⟩
      · have hc4 : 4 ≤ c := by omega
        have ihres := ih hc4 (by omega)
        rw [natRange_snoc (by omega), List.foldl_append]
        simp only [List.foldl_cons, List.foldl_nil]
        exact passON3_spec em sq (l := c + 1) (by omega) hn ihres.1
          (by
            have h5 : c + 1 - 1 = c := by omega
            rw [h5]
            exact ihres.2)

/-- Positivity of the computed O(n³) tables on every window `i + 4 ≤ j < n`. -/
theorem pfON3_pos (em : EnergyModel) (sq : List Char) {i j : ℕ}
    (h4 : i + 4 ≤ j) (hn : j < sq.length) :
    0 < (pfON3 em sq).Qb i j ∧ 0 < (pfON3 em sq).Qm i j ∧ 1 ≤ (pfON3 em sq).Q i j := by
  have hfold := pfON3_fold em sq sq.length sq.length (by omega) (le_refl _)
  exact hfold.2 i j h4 hn (by omega)

/-- C7: every division the posterior back-recursion performs has a nonzero
denominator, on both engine paths of `compute_posterior_noPK_ON4`.  The
first double loop (lines 1320-1340) divides by `Q(i,j)` and `Qm(i,j)` only
inside loops requiring `i + 4 ≤ j < n`, and on that range both the O(n⁴)
tables (`fast = false`) and the O(n³) tables (`fast = true`, the default)
satisfy `Q(i,j) ≥ 1 > 0`, `Qm(i,j) > 0` and `Qb(i,j) > 0`; the second loop
(lines 1343-1352) divides by `Qb(i,j)` only under its explicit
`Qb(i,j) > 0` guard.  Hence every `dP` is a quotient with nonzero
denominator and `assert(!std::isnan(dP))` holds in the idealized
arithmetic. -/
theorem C7_no_nan_denominators (em : EnergyModel) (sq : List Char) (i j : ℕ)
    (h4 : i + 4 ≤ j) (hn : j < sq.length) :
    ((pfON4 em sq).Q i j ≠ 0 ∧ (pfON4 em sq).Qm i j ≠ 0 ∧ (pfON4 em sq).Qb i j ≠ 0) ∧
    ((pfON3 em sq).Q i j ≠ 0 ∧ (pfON3 em sq).Qm i j ≠ 0 ∧ (pfON3 em sq).Qb i j ≠ 0) := by
  have h := pfON4_pos em sq h4 hn
  have h3 := pfON3_pos em sq h4 hn
  exact ⟨⟨ne_of_gt (lt_of_lt_of_le zero_lt_one h.2.2), ne_of_gt h.2.1, ne_of_gt h.1⟩,
    ⟨ne_of_gt (lt_of_lt_of_le zero_lt_one h3.2.2), ne_of_gt h3.2.1, ne_of_gt h3.1⟩⟩

theorem C7_no_nan_denominators_witness :
    ((pfON4 zeroEM sqA5).Q 0 4 ≠ 0 ∧ (pfON4 zeroEM sqA5).Qm 0 4 ≠ 0 ∧
     (pfON4 zeroEM sqA5).Qb 0 4 ≠ 0) ∧
    ((pfON3 zeroEM sqA5).Q 0 4 ≠ 0 ∧ (pfON3 zeroEM sqA5).Qm 0 4 ≠ 0 ∧
     (pfON3 zeroEM sqA5).Qb 0 4 ≠ 0) :=
  C7_no_nan_denominators zeroEM sqA5 0 4 (by decide) (by decide)
